import Mathlib

/-!
Verification of the booking server (`src/server.js`) against its
natural-language specification.

The development shallowly embeds the server's data flow:

* JSON values are modelled by the inductive type `Dra.Json`.  JavaScript
  numbers are modelled as exact decimals: integers (`num`) together with
  non-integer decimals in lowest terms (`numF`, the value `m / 10^s`).
  The model is exact where binary64 rounds, so two decimal spellings
  that are distinct here can collapse to one double in JavaScript; this
  matters only beyond 15-17 significant digits, far outside anything the
  server writes (`Date.now()` identifiers).  Printing always uses the
  plain-decimal spelling, the one JavaScript itself uses between 1e-6
  and 1e21.  Object fields are an ordered association list, mirroring
  JavaScript property order; a hand-written store file with a duplicated
  key inside one object (impossible for the server to produce, since an
  in-memory JavaScript object cannot hold duplicates) is read here as
  the duplicated list, where `JSON.parse` would keep the last binding.
* `JSON.stringify(v, null, 2)` is embedded by `Dra.printJson` (two-space
  indented output, string escaping as performed by V8: `"`, `\`, the named
  control escapes, and `\u00xx` for the remaining chars below 0x20).
* `JSON.parse` is embedded by `Dra.jsonParse`, a fuel-indexed recursive
  descent parser over the full ECMA-404 number grammar (leading zeros
  rejected, optional fraction and exponent, every literal normalised to
  its exact value).  The one divergence, irrelevant to the claims:
  `\uXXXX` escapes forming surrogate pairs are not combined (Lean `Char`
  has no lone surrogates; the printer never emits `\u` escapes at or
  above 0x20).
* `Number(idParam)` is embedded by `Dra.toNumber` (ECMA-262
  `StringToNumber`: whitespace trimming, signed decimals with fraction
  and exponent, `Infinity`, unsigned hex/octal/binary prefixes), again
  with exact decimal values, and the delete filter compares with
  `Dra.jsStrictEqN` — strict equality on the normalised decimal forms.
* The filesystem is an `Option String`: `none` models an absent or
  unreadable file, `some s` a file with contents `s`.  A fallible write is
  modelled by a `saveOk : Bool` parameter: `false` means `fs.writeFileSync`
  throws.
* Wall-clock inputs `Date.now()` / `new Date().toISOString()` are passed as
  explicit parameters `now : Int` and `iso : String`.
-/

namespace Dra

/-- JSON values.  Numbers are exact decimals: `num n` is the integer `n`,
and `numF m s` (with invariants `m % 10 ≠ 0` and `0 < s`) is the
non-integer `m / 10^s` in lowest decimal terms, so every representable
number has exactly one representation.  This models JavaScript numbers up
to double rounding: values whose decimal spelling exceeds double
precision, and the exponent-notation spellings JavaScript uses below 1e-6
and at or above 1e21, are outside the model; every value the server
itself writes (integer `Date.now()` identifiers and client JSON round
trips) is within it. -/
inductive Json where
  | null : Json
  | bool : Bool → Json
  | num : Int → Json
  | str : String → Json
  | arr : List Json → Json
  | obj : List (String × Json) → Json
  | numF (m : Int) (s : Nat) (hm : m % 10 ≠ 0) (hs : 0 < s) : Json

/-! ## Printer: embedding of `JSON.stringify(value, null, 2)` -/

/-- Two-space indentation gap (the `2` in `JSON.stringify(bookings, null, 2)`,
`src/server.js` line 32). -/
def sp2 : List Char := [' ', ' ']

/-- Character list of a keyword literal. -/
def lit (s : String) : List Char := s.data

/-- Lowercase hex digit, as produced by JavaScript `toString(16)`. -/
def hexDigit (n : Nat) : Char :=
  if n < 10 then Char.ofNat (48 + n) else Char.ofNat (87 + n)

/-- One character of JSON string escaping, as in V8's `JSON.stringify`:
`"` and `\` are escaped, control characters below 0x20 use the named
escapes where they exist and `\u00xx` otherwise, everything else is
emitted verbatim. -/
def escapeChar (c : Char) : List Char :=
  if c = '"' then ['\\', '"']
  else if c = '\\' then ['\\', '\\']
  else if c = '\x08' then ['\\', 'b']
  else if c = '\x0c' then ['\\', 'f']
  else if c = '\n' then ['\\', 'n']
  else if c = '\r' then ['\\', 'r']
  else if c = '\t' then ['\\', 't']
  else if c.toNat < 32 then
    ['\\', 'u', '0', '0', hexDigit (c.toNat / 16), hexDigit (c.toNat % 16)]
  else [c]

/-- Escape every character of a string body. -/
def escList : List Char → List Char
  | [] => []
  | c :: cs => escapeChar c ++ escList cs

/-- A quoted JSON string literal. -/
def quoteStr (s : List Char) : List Char :=
  '"' :: (escList s ++ ['"'])

/-- Decimal digit character for `n < 10`. -/
def digitCh (n : Nat) : Char := Char.ofNat (48 + n)

/-- Decimal printing of a natural number (JavaScript `Number::toString` on
a nonnegative integer). -/
def printNat (n : Nat) : List Char :=
  if n < 10 then [digitCh n]
  else printNat (n / 10) ++ [digitCh (n % 10)]
  decreasing_by omega

/-- Decimal printing of an integer. -/
def printInt : Int → List Char
  | .ofNat n => printNat n
  | .negSucc m => '-' :: printNat (m + 1)

/-- `F` printed as exactly `s` decimal digits, zero-padded on the left
(the fraction part of a decimal; requires `F < 10^s`). -/
def printNatPad (s F : Nat) : List Char :=
  List.replicate (s - (printNat F).length) '0' ++ printNat F

/-- Decimal printing of the non-integer `m / 10^s`, as JavaScript
`Number::toString` formats it in the plain-decimal range: sign, integer
part, `.`, then `s` fraction digits (the invariant `m % 10 ≠ 0` means the
last one is never `0`). -/
def printFrac (m : Int) (s : Nat) : List Char :=
  (if m < 0 then ['-'] else []) ++
    (printNat (m.natAbs / 10 ^ s) ++ ('.' :: printNatPad s (m.natAbs % 10 ^ s)))

mutual

/-- `JSON.stringify(v, null, 2)` at current indentation `ind`:  the value's
own first character is emitted directly; the surrounding container emits the
newline-plus-indentation that precedes it. -/
def printJson (ind : List Char) : Json → List Char
  | .null => lit "null"
  | .bool true => lit "true"
  | .bool false => lit "false"
  | .num n => printInt n
  | .numF m s _ _ => printFrac m s
  | .str s => quoteStr s.data
  | .arr [] => ['[', ']']
  | .arr (x :: xs) =>
      '[' :: '\n' :: ((ind ++ sp2) ++ (printJson (ind ++ sp2) x ++
        (printArrRest (ind ++ sp2) xs ++ ('\n' :: (ind ++ [']'])))))
  | .obj [] => ['{', '}']
  | .obj (f :: fs) =>
      '{' :: '\n' :: ((ind ++ sp2) ++ (printField (ind ++ sp2) f ++
        (printObjRest (ind ++ sp2) fs ++ ('\n' :: (ind ++ ['}'])))))

/-- One object member: `"key": value`. -/
def printField (ind : List Char) : String × Json → List Char
  | (k, v) => quoteStr k.data ++ (':' :: ' ' :: printJson ind v)

/-- Second and later array elements, each preceded by `,\n` and the
element indentation. -/
def printArrRest (ind : List Char) : List Json → List Char
  | x :: xs => ',' :: '\n' :: (ind ++ (printJson ind x ++ printArrRest ind xs))
  | [] => []

/-- Second and later object members. -/
def printObjRest (ind : List Char) : List (String × Json) → List Char
  | f :: fs => ',' :: '\n' :: (ind ++ (printField ind f ++ printObjRest ind fs))
  | [] => []

end

/-! ## Parser: embedding of `JSON.parse` -/

/-- JSON whitespace. -/
def isWs (c : Char) : Bool :=
  c = ' ' || c = '\n' || c = '\t' || c = '\r'

/-- Skip leading whitespace. -/
def skipWs : List Char → List Char
  | [] => []
  | c :: cs => if isWs c then skipWs cs else c :: cs

/-- Decimal digit test. -/
def isDigitCh (c : Char) : Bool := 48 ≤ c.toNat && c.toNat ≤ 57

/-- Accumulating decimal parse; consumes the longest digit run. -/
def parseNatAcc (acc : Nat) : List Char → Nat × List Char
  | [] => (acc, [])
  | c :: cs =>
    if isDigitCh c then parseNatAcc (acc * 10 + (c.toNat - 48)) cs
    else (acc, c :: cs)

/-- Value of a hex digit character, if any. -/
def hexVal (c : Char) : Option Nat :=
  if 48 ≤ c.toNat ∧ c.toNat ≤ 57 then some (c.toNat - 48)
  else if 97 ≤ c.toNat ∧ c.toNat ≤ 102 then some (c.toNat - 87)
  else if 65 ≤ c.toNat ∧ c.toNat ≤ 70 then some (c.toNat - 55)
  else none

/-- Match an expected literal character sequence. -/
def dropLit : List Char → List Char → Option (List Char)
  | [], cs => some cs
  | _ :: _, [] => none
  | p :: ps, c :: cs => if c = p then dropLit ps cs else none

/-- Digit run with its value and digit count (the count is the decimal
scale of a fraction part). -/
def parseDigitsCnt (acc cnt : Nat) : List Char → Nat × Nat × List Char
  | [] => (acc, cnt, [])
  | c :: cs =>
    if isDigitCh c then parseDigitsCnt (acc * 10 + (c.toNat - 48)) (cnt + 1) cs
    else (acc, cnt, c :: cs)

/-- Normalise the exact decimal `D / 10^k`: divide out factors of ten,
landing on an integer (`num`) or a fraction in lowest decimal terms
(`numF`).  This is how each parsed numeral becomes the unique `Json`
representation of its mathematical value. -/
def mkNum (D : Int) : Nat → Json
  | 0 => .num D
  | k + 1 =>
    if h : D % 10 = 0 then mkNum (D / 10) k
    else .numF D (k + 1) h (Nat.succ_pos k)

/-- Exact value of a parsed numeral: sign, integer digits `I`, fraction
digits (value `fv`, scale `fc`) and exponent `ex` combine to
`±(I·10^fc + fv) · 10^(ex - fc)`. -/
def mkNumber (neg : Bool) (I fv fc : Nat) (ex : Int) : Json :=
  let D0 : Int := (I * 10 ^ fc + fv : Nat)
  let D := if neg then -D0 else D0
  let net := ex - (fc : Int)
  if 0 ≤ net then .num (D * 10 ^ net.toNat) else mkNum D (-net).toNat

/-- JSON integer part (after any sign): a lone `0`, or a nonzero digit
followed by more digits.  A leading zero followed by another digit leaves
that digit unconsumed, which makes the surrounding parse fail — exactly
how `JSON.parse` rejects `01`. -/
def parseIntPart : List Char → Option (Nat × List Char)
  | [] => none
  | c :: cs =>
    if c = '0' then some (0, cs)
    else if isDigitCh c then some (parseNatAcc 0 (c :: cs))
    else none

/-- `.digits` fraction if present and well formed; otherwise nothing is
consumed (a stray `.` then fails in the surrounding grammar, as in
`JSON.parse`). -/
def parseFracPart (cs : List Char) : Nat × Nat × List Char :=
  match cs with
  | '.' :: rest =>
    match rest with
    | c :: _ => if isDigitCh c then parseDigitsCnt 0 0 rest else (0, 0, cs)
    | [] => (0, 0, cs)
  | _ => (0, 0, cs)

/-- Exponent digits after `e`/`E` and an optional sign; `orig` is
returned unconsumed when they are missing or malformed. -/
def expTail (ds orig : List Char) (neg : Bool) : Int × List Char :=
  match ds with
  | d :: _ =>
    if isDigitCh d then
      let p := parseNatAcc 0 ds
      (if neg then -(p.1 : Int) else (p.1 : Int), p.2)
    else (0, orig)
  | [] => (0, orig)

/-- `e`/`E` exponent part if present and well formed; otherwise nothing
is consumed. -/
def parseExpPart (cs : List Char) : Int × List Char :=
  match cs with
  | c :: rest =>
    if c = 'e' ∨ c = 'E' then
      match rest with
      | '+' :: ds => expTail ds cs false
      | '-' :: ds => expTail ds cs true
      | ds => expTail ds cs false
    else (0, cs)
  | [] => (0, [])

/-- A complete JSON number token after the optional `-` sign: integer
part, optional fraction, optional exponent, normalised to its exact
value. -/
def parseNumTok (neg : Bool) (cs : List Char) : Option (Json × List Char) :=
  match parseIntPart cs with
  | none => none
  | some (I, r1) =>
    let f := parseFracPart r1
    let e := parseExpPart f.2.2
    some (mkNumber neg I f.1 f.2.1 e.1, e.2)

/-- Parse a JSON string body (after the opening quote): unescapes, rejects
raw control characters, stops at the closing quote. -/
def parseStrBody : List Char → Option (List Char × List Char)
  | [] => none
  | c :: cs =>
    if c = '"' then some ([], cs)
    else if c = '\\' then
      match cs with
      | [] => none
      | e :: cs2 =>
        if e = '"' then (parseStrBody cs2).map (fun p => ('"' :: p.1, p.2))
        else if e = '\\' then (parseStrBody cs2).map (fun p => ('\\' :: p.1, p.2))
        else if e = '/' then (parseStrBody cs2).map (fun p => ('/' :: p.1, p.2))
        else if e = 'b' then (parseStrBody cs2).map (fun p => ('\x08' :: p.1, p.2))
        else if e = 'f' then (parseStrBody cs2).map (fun p => ('\x0c' :: p.1, p.2))
        else if e = 'n' then (parseStrBody cs2).map (fun p => ('\n' :: p.1, p.2))
        else if e = 'r' then (parseStrBody cs2).map (fun p => ('\r' :: p.1, p.2))
        else if e = 't' then (parseStrBody cs2).map (fun p => ('\t' :: p.1, p.2))
        else if e = 'u' then
          match cs2 with
          | h1 :: h2 :: h3 :: h4 :: cs3 =>
            match hexVal h1, hexVal h2, hexVal h3, hexVal h4 with
            | some a, some b, some u, some d =>
              (parseStrBody cs3).map
                (fun p => (Char.ofNat (((a * 16 + b) * 16 + u) * 16 + d) :: p.1, p.2))
            | _, _, _, _ => none
          | _ => none
        else none
    else if c.toNat < 32 then none
    else (parseStrBody cs).map (fun p => (c :: p.1, p.2))

mutual

/-- Parse one JSON value (fuel-indexed; every recursive call strictly
decreases the fuel, and one unit of fuel is spent per grammar production,
so `length + 1` fuel always suffices). -/
def parseVal : Nat → List Char → Option (Json × List Char)
  | 0, _ => none
  | fuel + 1, cs =>
    match skipWs cs with
    | [] => none
    | c :: cs1 =>
      if c = 'n' then (dropLit ['u', 'l', 'l'] cs1).map (fun r => (.null, r))
      else if c = 't' then (dropLit ['r', 'u', 'e'] cs1).map (fun r => (.bool true, r))
      else if c = 'f' then (dropLit ['a', 'l', 's', 'e'] cs1).map (fun r => (.bool false, r))
      else if c = '"' then (parseStrBody cs1).map (fun p => (.str (String.mk p.1), p.2))
      else if c = '[' then
        let r1 := skipWs cs1
        if r1.head? = some ']' then some (.arr [], r1.tail)
        else
          match parseVal fuel r1 with
          | some (x, r2) =>
            match parseArrTail fuel r2 with
            | some (xs, r3) => some (.arr (x :: xs), r3)
            | none => none
          | none => none
      else if c = '{' then
        let r1 := skipWs cs1
        if r1.head? = some '}' then some (.obj [], r1.tail)
        else
          match parseMember fuel r1 with
          | some (f, r2) =>
            match parseObjTail fuel r2 with
            | some (fs, r3) => some (.obj (f :: fs), r3)
            | none => none
          | none => none
      else if c = '-' then
        match cs1 with
        | d :: _ => if isDigitCh d then parseNumTok true cs1 else none
        | [] => none
      else if isDigitCh c then parseNumTok false (c :: cs1)
      else none

/-- After the first array element: `, value`* `]`. -/
def parseArrTail : Nat → List Char → Option (List Json × List Char)
  | 0, _ => none
  | fuel + 1, cs =>
    match skipWs cs with
    | [] => none
    | c :: cs1 =>
      if c = ']' then some ([], cs1)
      else if c = ',' then
        match parseVal fuel cs1 with
        | some (x, r2) =>
          match parseArrTail fuel r2 with
          | some (xs, r3) => some (x :: xs, r3)
          | none => none
        | none => none
      else none

/-- One object member `"key": value`. -/
def parseMember : Nat → List Char → Option ((String × Json) × List Char)
  | 0, _ => none
  | fuel + 1, cs =>
    match skipWs cs with
    | [] => none
    | c :: cs1 =>
      if c = '"' then
        match parseStrBody cs1 with
        | some (k, r1) =>
          match skipWs r1 with
          | [] => none
          | c2 :: r2 =>
            if c2 = ':' then
              match parseVal fuel r2 with
              | some (v, r3) => some ((String.mk k, v), r3)
              | none => none
            else none
        | none => none
      else none

/-- After the first object member: `, member`* `}`. -/
def parseObjTail : Nat → List Char → Option (List (String × Json) × List Char)
  | 0, _ => none
  | fuel + 1, cs =>
    match skipWs cs with
    | [] => none
    | c :: cs1 =>
      if c = '}' then some ([], cs1)
      else if c = ',' then
        match parseMember fuel cs1 with
        | some (f, r2) =>
          match parseObjTail fuel r2 with
          | some (fs, r3) => some (f :: fs, r3)
          | none => none
        | none => none
      else none

end

/-- `JSON.parse`: the whole input (up to trailing whitespace) must be one
JSON value. -/
def jsonParse (s : String) : Option Json :=
  match parseVal (s.data.length + 1) s.data with
  | some (v, rest) => if skipWs rest = [] then some v else none
  | none => none

/-! ## Round-trip: whitespace and token helpers -/

/-- Every character of `l` is JSON whitespace. -/
def wsOnly (l : List Char) : Prop := ∀ c ∈ l, isWs c = true

/-- A character that could extend a number token: a digit, a decimal
point, or an exponent marker. -/
def numTail (c : Char) : Bool :=
  isDigitCh c || c = '.' || c = 'e' || c = 'E'

/-- `l` cannot extend a number token printed immediately before it. -/
def hdOk (l : List Char) : Prop := ∀ c, l.head? = some c → numTail c = false

/-- `l` does not begin with a decimal digit. -/
def noDigitHead (l : List Char) : Prop :=
  ∀ c, l.head? = some c → isDigitCh c = false

theorem numTail_split {c : Char} (h : numTail c = false) :
    isDigitCh c = false ∧ c ≠ '.' ∧ c ≠ 'e' ∧ c ≠ 'E' := by
  simp only [numTail, Bool.or_eq_false_iff, decide_eq_false_iff_not] at h
  exact ⟨h.1.1.1, h.1.1.2, h.1.2, h.2⟩

theorem hdOk.noDigit {l : List Char} (h : hdOk l) : noDigitHead l :=
  fun c hc => (numTail_split (h c hc)).1

theorem wsOnly_nil : wsOnly [] := by intro c hc; cases hc

theorem wsOnly_append {a b : List Char} (ha : wsOnly a) (hb : wsOnly b) :
    wsOnly (a ++ b) := fun c hc => (List.mem_append.mp hc).elim (ha c) (hb c)

theorem wsOnly_sp2 : wsOnly sp2 := by
  intro c hc
  simp only [sp2, List.mem_cons, List.mem_singleton] at hc
  rcases hc with rfl | rfl | h
  · rfl
  · rfl
  · cases h

theorem wsOnly_cons {c : Char} {l : List Char} (hc : isWs c = true)
    (hl : wsOnly l) : wsOnly (c :: l) := by
  intro d hd
  rcases List.mem_cons.mp hd with rfl | h
  · exact hc
  · exact hl d h

theorem hdOk_nil : hdOk [] := by intro c hc; cases hc

theorem hdOk_cons {c : Char} {l : List Char} (h : numTail c = false) :
    hdOk (c :: l) := by
  intro d hd
  injection hd with h2
  exact h2 ▸ h

theorem noDigitHead_cons {c : Char} {l : List Char} (h : isDigitCh c = false) :
    noDigitHead (c :: l) := by
  intro d hd
  injection hd with h2
  exact h2 ▸ h

theorem skipWs_append {w : List Char} (hw : wsOnly w) (l : List Char) :
    skipWs (w ++ l) = skipWs l := by
  induction w with
  | cons c cs ih =>
    have hc : isWs c = true := hw c (List.mem_cons_self c cs)
    have hcs : wsOnly cs := fun d hd => hw d (List.mem_cons_of_mem c hd)
    simp [skipWs, hc, ih hcs]
  | nil => rfl

theorem skipWs_cons_notWs {c : Char} (h : isWs c = false) (l : List Char) :
    skipWs (c :: l) = c :: l := by
  simp [skipWs, h]

theorem dropLit_self : ∀ (l rest : List Char), dropLit l (l ++ rest) = some rest := by
  intro l
  induction l with
  | nil => intro rest; rfl
  | cons p ps ih => intro rest; simp [dropLit, ih rest]

theorem lit_null : lit "null" = 'n' :: ['u', 'l', 'l'] := rfl

theorem lit_true : lit "true" = 't' :: ['r', 'u', 'e'] := rfl

theorem lit_false : lit "false" = 'f' :: ['a', 'l', 's', 'e'] := rfl

/-! ## Round-trip: decimal numbers -/

theorem digitCh_toNat : ∀ m : Fin 10, (digitCh m.val).toNat = 48 + m.val := by decide

theorem digitCh_isDigit : ∀ m : Fin 10, isDigitCh (digitCh m.val) = true := by decide

/-- Character class facts about decimal digits, needed to steer the
parser's dispatch: a digit is no whitespace, no closing bracket, and no
token-start character of any other value class. -/
theorem digit_facts {c : Char} (h : isDigitCh c = true) :
    isWs c = false ∧ c ≠ '"' ∧ c ≠ 'n' ∧ c ≠ '[' ∧ c ≠ 't' ∧ c ≠ '{' ∧
      c ≠ 'f' ∧ c ≠ '-' ∧ c ≠ ']' ∧ c ≠ ',' ∧ c ≠ '}' := by
  have hne : ∀ d : Char, isDigitCh d = false → c ≠ d := by
    intro d hd he
    rw [he, hd] at h
    cases h
  refine ⟨?_, hne '"' (by decide), hne 'n' (by decide), hne '[' (by decide),
    hne 't' (by decide), hne '{' (by decide), hne 'f' (by decide),
    hne '-' (by decide), hne ']' (by decide), hne ',' (by decide),
    hne '}' (by decide)⟩
  cases hwc : isWs c with
  | false => rfl
  | true =>
    simp only [isWs, Bool.or_eq_true, decide_eq_true_eq] at hwc
    rcases hwc with ((rfl | rfl) | rfl) | rfl <;> exact absurd h (by decide)

theorem printNat_shape (n : Nat) :
    ∃ m tl, m < 10 ∧ printNat n = digitCh m :: tl := by
  induction n using Nat.strong_induction_on with
  | h n ih =>
    rw [printNat]
    split
    · exact ⟨n, [], by omega, rfl⟩
    · rename_i h
      obtain ⟨m, tl, hm, heq⟩ := ih (n / 10) (by omega)
      exact ⟨m, tl ++ [digitCh (n % 10)], hm, by rw [heq]; rfl⟩

/-- The weight `10 ^ (number of digits of n)`. -/
def p10 (n : Nat) : Nat :=
  if n < 10 then 10 else 10 * p10 (n / 10)
  decreasing_by omega

theorem parseNatAcc_print (n : Nat) :
    ∀ acc rest, parseNatAcc acc (printNat n ++ rest) =
      parseNatAcc (acc * p10 n + n) rest := by
  induction n using Nat.strong_induction_on with
  | h n ih =>
    intro acc rest
    rw [printNat, p10]
    split
    · rename_i h
      have h1 := digitCh_isDigit ⟨n, h⟩
      have h2 := digitCh_toNat ⟨n, h⟩
      simp only [List.cons_append, List.nil_append, parseNatAcc, h1, if_true, h2]
      congr 1
      omega
    · rename_i h
      have hd : n / 10 < n := by omega
      rw [List.append_assoc, List.cons_append, List.nil_append, ih (n / 10) hd]
      have h1 := digitCh_isDigit ⟨n % 10, by omega⟩
      have h2 := digitCh_toNat ⟨n % 10, by omega⟩
      simp only [parseNatAcc, h1, if_true, h2]
      congr 1
      have := Nat.div_add_mod n 10
      ring_nf
      omega

theorem parseNatAcc_stop {rest : List Char} (h : noDigitHead rest) (n : Nat) :
    parseNatAcc n rest = (n, rest) := by
  cases rest with
  | nil => rfl
  | cons c cs =>
    have := h c rfl
    simp [parseNatAcc, this]

theorem printNat_parse {rest : List Char} (h : noDigitHead rest) (n : Nat) :
    parseNatAcc 0 (printNat n ++ rest) = (n, rest) := by
  rw [parseNatAcc_print, Nat.zero_mul, Nat.zero_add, parseNatAcc_stop h]

theorem digitCh_ne_zero : ∀ d : Fin 10, 0 < d.val → digitCh d.val ≠ '0' := by decide

/-- A positive number prints with a nonzero leading digit. -/
theorem printNat_headPos : ∀ m : Nat, 0 < m →
    ∃ d tl, 0 < d ∧ d < 10 ∧ printNat m = digitCh d :: tl := by
  intro m
  induction m using Nat.strong_induction_on with
  | h m ih =>
    intro hm
    rw [printNat]
    split
    · rename_i h10
      exact ⟨m, [], hm, h10, rfl⟩
    · rename_i h10
      obtain ⟨d, tl, hd0, hd10, heq⟩ := ih (m / 10) (by omega) (by omega)
      exact ⟨d, tl ++ [digitCh (m % 10)], hd0, hd10, by rw [heq]; rfl⟩

/-- A number below `10 ^ s` prints in at most `s` digits. -/
theorem printNat_len_le : ∀ F s : Nat, 0 < s → F < 10 ^ s →
    (printNat F).length ≤ s := by
  intro F
  induction F using Nat.strong_induction_on with
  | h F ih =>
    intro s hs hF
    rw [printNat]
    split
    · simpa using hs
    · rename_i h10
      have hs2 : 2 ≤ s := by
        rcases Nat.lt_or_ge s 2 with h2 | h2
        · interval_cases s
          omega
        · exact h2
      have hdiv : F / 10 < 10 ^ (s - 1) := by
        rw [Nat.div_lt_iff_lt_mul (by omega)]
        calc F < 10 ^ s := hF
          _ = 10 ^ (s - 1) * 10 := by
            rw [← Nat.pow_succ]
            congr 1
            omega
      have := ih (F / 10) (by omega) (s - 1) (by omega) hdiv
      simp only [List.length_append, List.length_cons, List.length_nil]
      omega

/-- The JSON integer part consumes exactly a printed number: `0` as the
lone-zero form, anything positive through its nonzero leading digit. -/
theorem parseIntPart_print {rest : List Char} (h : noDigitHead rest) (m : Nat) :
    parseIntPart (printNat m ++ rest) = some (m, rest) := by
  rcases Nat.eq_zero_or_pos m with rfl | hm
  · have h0 : printNat 0 = ['0'] := by rw [printNat]; decide
    rw [h0]
    simp [parseIntPart]
  · obtain ⟨d, tl, hd0, hd10, heq⟩ := printNat_headPos m hm
    have hne : digitCh d ≠ '0' := digitCh_ne_zero ⟨d, hd10⟩ hd0
    rw [heq, List.cons_append]
    simp only [parseIntPart, hne, if_false, digitCh_isDigit ⟨d, hd10⟩, if_true]
    rw [← List.cons_append, ← heq, printNat_parse h]

/-- Counting variant of `parseNatAcc_print`: the digit run of a printed
number adds its value to the accumulator and its digit count to the
counter. -/
theorem parseDigitsCnt_print : ∀ (n acc cnt : Nat) (rest : List Char),
    parseDigitsCnt acc cnt (printNat n ++ rest) =
      parseDigitsCnt (acc * p10 n + n) (cnt + (printNat n).length) rest := by
  intro n
  induction n using Nat.strong_induction_on with
  | h n ih =>
    intro acc cnt rest
    rw [printNat, p10]
    split
    · rename_i h
      have h1 := digitCh_isDigit ⟨n, h⟩
      have h2 := digitCh_toNat ⟨n, h⟩
      simp only [List.cons_append, List.nil_append, parseDigitsCnt, h1, if_true, h2,
        List.length_cons, List.length_nil]
      congr 1
      omega
    · rename_i h
      have hd : n / 10 < n := by omega
      rw [List.append_assoc, List.cons_append, List.nil_append, ih (n / 10) hd]
      have h1 := digitCh_isDigit ⟨n % 10, by omega⟩
      have h2 := digitCh_toNat ⟨n % 10, by omega⟩
      simp only [parseDigitsCnt, h1, if_true, h2, List.length_append,
        List.length_cons, List.length_nil]
      have := Nat.div_add_mod n 10
      congr 1
      ring_nf
      omega

/-- A run of `k` zero characters multiplies the accumulator by `10 ^ k`
and adds `k` to the digit count. -/
theorem parseDigitsCnt_zeros : ∀ (k acc cnt : Nat) (l : List Char),
    parseDigitsCnt acc cnt (List.replicate k '0' ++ l) =
      parseDigitsCnt (acc * 10 ^ k) (cnt + k) l := by
  intro k
  induction k with
  | zero => intro acc cnt l; simp
  | succ k ih =>
    intro acc cnt l
    rw [List.replicate_succ, List.cons_append]
    have h0 : isDigitCh '0' = true := by decide
    simp only [parseDigitsCnt, h0, if_true]
    rw [ih]
    congr 1
    · show (acc * 10 + ('0'.toNat - 48)) * 10 ^ k = acc * 10 ^ (k + 1)
      rw [show '0'.toNat - 48 = 0 from rfl]
      ring
    · omega

theorem parseDigitsCnt_stop {l : List Char} (h : noDigitHead l) (acc cnt : Nat) :
    parseDigitsCnt acc cnt l = (acc, cnt, l) := by
  cases l with
  | nil => rfl
  | cons c cs => simp [parseDigitsCnt, h c rfl]

/-- A zero-padded fraction block starts with a digit. -/
theorem printNatPad_head (s F : Nat) :
    ∃ c tl, printNatPad s F = c :: tl ∧ isDigitCh c = true := by
  rw [printNatPad]
  cases hk : s - (printNat F).length with
  | zero =>
    obtain ⟨d, tl, hd10, heq⟩ := printNat_shape F
    exact ⟨digitCh d, tl, by simp [heq], digitCh_isDigit ⟨d, hd10⟩⟩
  | succ k =>
    exact ⟨'0', List.replicate k '0' ++ printNat F,
      by simp [List.replicate_succ], by decide⟩

/-- Re-parsing a zero-padded fraction block recovers its value and its
scale. -/
theorem printNatPad_parse {rest : List Char} (h : noDigitHead rest) {s F : Nat}
    (hs : 0 < s) (hF : F < 10 ^ s) :
    parseDigitsCnt 0 0 (printNatPad s F ++ rest) = (F, s, rest) := by
  have hlen : (printNat F).length ≤ s := printNat_len_le F s hs hF
  rw [printNatPad, List.append_assoc, parseDigitsCnt_zeros, parseDigitsCnt_print,
    parseDigitsCnt_stop h]
  simp only [Nat.zero_mul, Nat.zero_add]
  rw [Nat.sub_add_cancel hlen]

/-- No fraction part starts at a boundary that cannot extend a number
token. -/
theorem parseFracPart_stop {l : List Char} (h : hdOk l) :
    parseFracPart l = (0, 0, l) := by
  cases l with
  | nil => rfl
  | cons c cs =>
    obtain ⟨-, hdot, -, -⟩ := numTail_split (h c rfl)
    rw [parseFracPart.eq_def]
    split
    · rename_i heq
      injection heq with h1 h2
      exact absurd h1 hdot
    · rfl

/-- No exponent part starts at a boundary that cannot extend a number
token. -/
theorem parseExpPart_stop {l : List Char} (h : hdOk l) :
    parseExpPart l = (0, l) := by
  cases l with
  | nil => rfl
  | cons c cs =>
    obtain ⟨-, -, he, hE⟩ := numTail_split (h c rfl)
    simp only [parseExpPart]
    rw [if_neg (by simp [he, hE])]

/-- The value of a fractionless, exponentless numeral is its integer
digits. -/
theorem mkNumber_int (neg : Bool) (I : Nat) :
    mkNumber neg I 0 0 0 = .num (if neg then -(I : Int) else (I : Int)) := by
  cases neg with
  | true => simp only [mkNumber]; norm_num
  | false => simp only [mkNumber]; norm_num

/-- A printed integer re-parses as a whole number token. -/
theorem parseNumTok_print {rest : List Char} (h : hdOk rest) (neg : Bool) (m : Nat) :
    parseNumTok neg (printNat m ++ rest) =
      some (.num (if neg then -(m : Int) else (m : Int)), rest) := by
  have h1 := parseIntPart_print (hdOk.noDigit h) m
  simp only [parseNumTok, h1, parseFracPart_stop h, parseExpPart_stop h,
    mkNumber_int]

/-- A printed fraction block re-parses as a whole number token, yielding
the un-normalised numeral components. -/
theorem parseNumTok_frac {rest : List Char} (h : hdOk rest) (neg : Bool)
    (q F s : Nat) (hs : 0 < s) (hF : F < 10 ^ s) :
    parseNumTok neg (printNat q ++ ('.' :: (printNatPad s F ++ rest))) =
      some (mkNumber neg q F s 0, rest) := by
  have hnd : noDigitHead ('.' :: (printNatPad s F ++ rest)) :=
    noDigitHead_cons (by decide)
  have h1 := parseIntPart_print hnd q
  obtain ⟨c0, tl0, hpad, hc0⟩ := printNatPad_head s F
  have hfrac : parseFracPart ('.' :: (printNatPad s F ++ rest)) = (F, s, rest) := by
    rw [show printNatPad s F ++ rest = c0 :: (tl0 ++ rest) by rw [hpad]; rfl]
    simp only [parseFracPart, hc0, if_true]
    rw [show c0 :: (tl0 ++ rest) = printNatPad s F ++ rest by rw [hpad]; rfl]
    exact printNatPad_parse (hdOk.noDigit h) hs hF
  simp only [parseNumTok, h1, hfrac, parseExpPart_stop h]

/-- Normalising an already-normalised fraction is the identity. -/
theorem mkNum_norm (m : Int) (s : Nat) (hm : m % 10 ≠ 0) (hs : 0 < s) :
    mkNum m s = .numF m s hm hs := by
  cases s with
  | zero => omega
  | succ k => simp [mkNum, hm]

/-- The numeral components printed for a normalised fraction evaluate
back to exactly that fraction. -/
theorem mkNumber_frac (neg : Bool) (m : Int) (s : Nat) (hm : m % 10 ≠ 0)
    (hs : 0 < s) (hsign : neg = true ↔ m < 0) :
    mkNumber neg (m.natAbs / 10 ^ s) (m.natAbs % 10 ^ s) s 0 = .numF m s hm hs := by
  have hA : m.natAbs / 10 ^ s * 10 ^ s + m.natAbs % 10 ^ s = m.natAbs := by
    rw [Nat.mul_comm]
    exact Nat.div_add_mod _ _
  have hD : (if neg then
      -((m.natAbs / 10 ^ s * 10 ^ s + m.natAbs % 10 ^ s : Nat) : Int)
      else ((m.natAbs / 10 ^ s * 10 ^ s + m.natAbs % 10 ^ s : Nat) : Int)) = m := by
    rw [hA]
    cases neg with
    | true =>
      have := hsign.mp rfl
      rw [if_pos rfl]
      omega
    | false =>
      have : ¬ m < 0 := fun hlt => by simpa using hsign.mpr hlt
      rw [if_neg (by simp)]
      omega
  simp only [mkNumber]
  rw [if_neg (by omega), hD]
  rw [show (-(0 - (s : Int))).toNat = s by omega]
  exact mkNum_norm m s hm hs

/-! ## Round-trip: strings -/

theorem hexVal_hexDigit : ∀ m : Fin 16, hexVal (hexDigit m.val) = some m.val := by decide

theorem strBody_rt : ∀ (s rest : List Char),
    parseStrBody (escList s ++ '"' :: rest) = some (s, rest) := by
  intro s
  induction s with
  | nil => intro rest; rw [escList, List.nil_append, parseStrBody.eq_def]; simp
  | cons c cs ih =>
    intro rest
    show parseStrBody ((escapeChar c ++ escList cs) ++ '"' :: rest) = _
    rw [List.append_assoc]
    unfold escapeChar
    split_ifs with h1 h2 h3 h4 h5 h6 h7 h8
    · subst h1; rw [List.cons_append, List.cons_append, List.nil_append,
        parseStrBody.eq_def]; simp [ih rest]
    · subst h2; rw [List.cons_append, List.cons_append, List.nil_append,
        parseStrBody.eq_def]; simp [ih rest]
    · subst h3; rw [List.cons_append, List.cons_append, List.nil_append,
        parseStrBody.eq_def]; simp [ih rest]
    · subst h4; rw [List.cons_append, List.cons_append, List.nil_append,
        parseStrBody.eq_def]; simp [ih rest]
    · subst h5; rw [List.cons_append, List.cons_append, List.nil_append,
        parseStrBody.eq_def]; simp [ih rest]
    · subst h6; rw [List.cons_append, List.cons_append, List.nil_append,
        parseStrBody.eq_def]; simp [ih rest]
    · subst h7; rw [List.cons_append, List.cons_append, List.nil_append,
        parseStrBody.eq_def]; simp [ih rest]
    · -- `\u00xx` escape for the remaining control characters
      have hv1 : hexVal (hexDigit (c.toNat / 16)) = some (c.toNat / 16) :=
        hexVal_hexDigit ⟨c.toNat / 16, by omega⟩
      have hv2 : hexVal (hexDigit (c.toNat % 16)) = some (c.toNat % 16) :=
        hexVal_hexDigit ⟨c.toNat % 16, by omega⟩
      have hrec : ((0 * 16 + 0) * 16 + c.toNat / 16) * 16 + c.toNat % 16 = c.toNat := by
        omega
      have hq : hexVal '0' = some 0 := rfl
      rw [parseStrBody.eq_def]
      simp only [List.cons_append, List.nil_append]
      simp [hq, hv1, hv2, ih rest]
      rw [show c.toNat / 16 * 16 + c.toNat % 16 = c.toNat by omega, Char.ofNat_toNat]
    · -- ordinary character, emitted verbatim
      rw [List.cons_append, List.nil_append, parseStrBody.eq_def]
      simp [h1, h2, h8, ih rest]

/-! ## Round-trip: a size measure bounding the parser fuel -/

mutual

/-- Grammar-production count of a JSON value: the fuel the parser needs. -/
def jw : Json → Nat
  | .arr xs => 1 + jwList xs
  | .obj fs => 1 + jwObj fs
  | _ => 1

def jwList : List Json → Nat
  | x :: xs => 1 + jw x + jwList xs
  | [] => 1

def jwObj : List (String × Json) → Nat
  | (_, v) :: fs => 1 + jw v + jwObj fs
  | [] => 1

end

theorem jw_pos (v : Json) : 1 ≤ jw v := by
  cases v <;> simp only [jw] <;> omega

theorem jwList_pos (xs : List Json) : 1 ≤ jwList xs := by
  cases xs <;> simp only [jwList] <;> omega

theorem jwObj_pos (fs : List (String × Json)) : 1 ≤ jwObj fs := by
  cases fs with
  | nil => simp only [jwObj]; omega
  | cons f fs => obtain ⟨k, v⟩ := f; simp only [jwObj]; omega

/-- Token-start test: the first character of a printed JSON value is
never whitespace or a closing bracket. -/
def tokenHead (c : Char) : Bool := !(isWs c) && c != ']' && c != '}'

theorem tokenHead_ws {c : Char} (h : tokenHead c = true) : isWs c = false := by
  simp only [tokenHead, Bool.and_eq_true, Bool.not_eq_eq_eq_not, Bool.not_true] at h
  exact h.1.1

theorem tokenHead_ne_rb {c : Char} (h : tokenHead c = true) : c ≠ ']' := by
  simp only [tokenHead, Bool.and_eq_true, bne_iff_ne, ne_eq] at h
  exact h.1.2

/-- Every printed JSON value begins with a token-start character. -/
theorem printJson_shape (ind : List Char) (v : Json) :
    ∃ c tl, printJson ind v = c :: tl ∧ tokenHead c = true := by
  cases v with
  | null =>
    exact ⟨'n', ['u', 'l', 'l'], by simp [printJson, lit_null], by decide⟩
  | bool b =>
    cases b with
    | true =>
      exact ⟨'t', ['r', 'u', 'e'], by simp [printJson, lit_true], by decide⟩
    | false =>
      exact ⟨'f', ['a', 'l', 's', 'e'], by simp [printJson, lit_false], by decide⟩
  | num n =>
    cases n with
    | ofNat m =>
      obtain ⟨d, tl, hd, heq⟩ := printNat_shape m
      obtain ⟨hws0, _, _, _, _, _, _, _, hbr1, _, hbr2⟩ :=
        digit_facts (digitCh_isDigit ⟨d, hd⟩)
      refine ⟨digitCh d, tl, by simp [printJson, printInt, heq], ?_⟩
      simp [tokenHead, hws0, hbr1, hbr2]
    | negSucc m =>
      exact ⟨'-', printNat (m + 1), by simp [printJson, printInt], by decide⟩
  | numF m s hm hs =>
    by_cases hneg : m < 0
    · refine ⟨'-', printNat (m.natAbs / 10 ^ s) ++
        ('.' :: printNatPad s (m.natAbs % 10 ^ s)), ?_, by decide⟩
      simp [printJson, printFrac, hneg]
    · obtain ⟨d, tl, hd, heq⟩ := printNat_shape (m.natAbs / 10 ^ s)
      obtain ⟨hws0, _, _, _, _, _, _, _, hbr1, _, hbr2⟩ :=
        digit_facts (digitCh_isDigit ⟨d, hd⟩)
      refine ⟨digitCh d, tl ++ ('.' :: printNatPad s (m.natAbs % 10 ^ s)), ?_, ?_⟩
      · simp [printJson, printFrac, hneg, heq]
      · simp [tokenHead, hws0, hbr1, hbr2]
  | str s =>
    exact ⟨'"', escList s.data ++ ['"'], by simp [printJson, quoteStr], by decide⟩
  | arr xs =>
    cases xs with
    | nil => exact ⟨'[', [']'], by simp [printJson], by decide⟩
    | cons x xs =>
      refine ⟨'[', '\n' :: ((ind ++ sp2) ++ (printJson (ind ++ sp2) x ++
        (printArrRest (ind ++ sp2) xs ++ ('\n' :: (ind ++ [']']))))), ?_, by decide⟩
      simp only [printJson]
  | obj fs =>
    cases fs with
    | nil => exact ⟨'{', ['}'], by simp [printJson], by decide⟩
    | cons f fs =>
      refine ⟨'{', '\n' :: ((ind ++ sp2) ++ (printField (ind ++ sp2) f ++
        (printObjRest (ind ++ sp2) fs ++ ('\n' :: (ind ++ ['}']))))), ?_, by decide⟩
      simp only [printJson]

/-- The printed form of a value is at least as long as its grammar weight,
so `input length + 1` fuel always suffices to re-parse printed output. -/
theorem lenGe : ∀ N : Nat,
    (∀ ind v, jw v ≤ N → jw v ≤ (printJson ind v).length) ∧
    (∀ ind xs, jwList xs ≤ N → jwList xs ≤ (printArrRest ind xs).length + 1) ∧
    (∀ ind fs, jwObj fs ≤ N → jwObj fs ≤ (printObjRest ind fs).length + 1) ∧
    (∀ ind k v, jw v + 1 ≤ N → jw v ≤ (printField ind (k, v)).length) := by
  intro N
  induction N with
  | zero =>
    refine ⟨fun ind v h => ?_, fun ind xs h => ?_, fun ind fs h => ?_,
      fun ind k v h => ?_⟩
    · have := jw_pos v; omega
    · have := jwList_pos xs; omega
    · have := jwObj_pos fs; omega
    · have := jw_pos v; omega
  | succ N ih =>
    obtain ⟨ihV, ihA, ihO, ihF⟩ := ih
    refine ⟨fun ind v h => ?_, fun ind xs h => ?_, fun ind fs h => ?_,
      fun ind k v h => ?_⟩
    · cases v with
      | null => simp [printJson, lit_null, jw]
      | bool b => cases b <;> simp [printJson, lit_true, lit_false, jw]
      | num n =>
        cases n with
        | ofNat m =>
          obtain ⟨d, tl, _, heq⟩ := printNat_shape m
          simp [printJson, printInt, heq, jw]
        | negSucc m => simp [printJson, printInt, jw]
      | numF m s hm hs =>
        obtain ⟨d, tl, _, heq⟩ := printNat_shape (m.natAbs / 10 ^ s)
        by_cases hneg : m < 0 <;>
          simp [printJson, printFrac, hneg, heq, jw]
      | str s => simp [printJson, quoteStr, jw]
      | arr xs =>
        cases xs with
        | nil => simp [printJson, jw, jwList]
        | cons x xs =>
          simp only [jw, jwList] at h ⊢
          have hx := ihV (ind ++ sp2) x (by have := jwList_pos xs; omega)
          have hxs := ihA (ind ++ sp2) xs (by have := jw_pos x; omega)
          have hsp : sp2.length = 2 := rfl
          simp only [printJson, List.length_cons, List.length_append,
            List.length_nil]
          omega
      | obj fs =>
        cases fs with
        | nil => simp [printJson, jw, jwObj]
        | cons f fs =>
          obtain ⟨k, v⟩ := f
          simp only [jw, jwObj] at h ⊢
          have hv := ihF (ind ++ sp2) k v (by have := jwObj_pos fs; omega)
          have hfs := ihO (ind ++ sp2) fs (by have := jw_pos v; omega)
          have hsp : sp2.length = 2 := rfl
          simp only [printJson, List.length_cons, List.length_append,
            List.length_nil]
          omega
    · cases xs with
      | nil => simp [printArrRest, jwList]
      | cons x xs =>
        simp only [jwList] at h ⊢
        have hx := ihV ind x (by have := jwList_pos xs; omega)
        have hxs := ihA ind xs (by have := jw_pos x; omega)
        simp only [printArrRest, List.length_cons, List.length_append]
        omega
    · cases fs with
      | nil => simp [printObjRest, jwObj]
      | cons f fs =>
        obtain ⟨k, v⟩ := f
        simp only [jwObj] at h ⊢
        have hv := ihF ind k v (by have := jwObj_pos fs; omega)
        have hfs := ihO ind fs (by have := jw_pos v; omega)
        simp only [printObjRest, List.length_cons, List.length_append]
        omega
    · have hv := ihV ind v (by omega)
      simp only [printField, quoteStr, List.length_append, List.length_cons]
      omega

/-! ## Round-trip: the parser re-reads everything the printer wrote -/

theorem hdOk_arrRest (ind ind2 rest : List Char) (xs : List Json) :
    hdOk (printArrRest ind xs ++ ('\n' :: (ind2 ++ (']' :: rest)))) := by
  cases xs with
  | nil =>
    simp only [printArrRest, List.nil_append]
    exact hdOk_cons (by decide)
  | cons x xs =>
    simp only [printArrRest, List.cons_append]
    exact hdOk_cons (by decide)

theorem hdOk_objRest (ind ind2 rest : List Char) (fs : List (String × Json)) :
    hdOk (printObjRest ind fs ++ ('\n' :: (ind2 ++ ('}' :: rest)))) := by
  cases fs with
  | nil =>
    simp only [printObjRest, List.nil_append]
    exact hdOk_cons (by decide)
  | cons f fs =>
    simp only [printObjRest, List.cons_append]
    exact hdOk_cons (by decide)

theorem parsePrint : ∀ fuel : Nat,
    (∀ v ind pre rest, wsOnly ind → wsOnly pre → hdOk rest → jw v ≤ fuel →
      parseVal fuel (pre ++ (printJson ind v ++ rest)) = some (v, rest)) ∧
    (∀ xs ind ind2 rest, wsOnly ind → wsOnly ind2 → jwList xs ≤ fuel →
      parseArrTail fuel
        (printArrRest ind xs ++ ('\n' :: (ind2 ++ (']' :: rest)))) = some (xs, rest)) ∧
    (∀ fs ind ind2 rest, wsOnly ind → wsOnly ind2 → jwObj fs ≤ fuel →
      parseObjTail fuel
        (printObjRest ind fs ++ ('\n' :: (ind2 ++ ('}' :: rest)))) = some (fs, rest)) ∧
    (∀ k v ind pre rest, wsOnly ind → wsOnly pre → hdOk rest → jw v + 1 ≤ fuel →
      parseMember fuel (pre ++ (printField ind (k, v) ++ rest)) = some ((k, v), rest)) := by
  intro fuel
  induction fuel with
  | zero =>
    refine ⟨fun v _ _ _ _ _ _ h => ?_, fun xs _ _ _ _ _ h => ?_,
      fun fs _ _ _ _ _ h => ?_, fun _ v _ _ _ _ _ _ h => ?_⟩
    · have := jw_pos v; omega
    · have := jwList_pos xs; omega
    · have := jwObj_pos fs; omega
    · omega
  | succ N ih =>
    obtain ⟨ihV, ihA, ihO, ihM⟩ := ih
    refine ⟨fun v ind pre rest hind hpre hrest hf => ?_,
      fun xs ind ind2 rest hind hind2 hf => ?_,
      fun fs ind ind2 rest hind hind2 hf => ?_,
      fun k v ind pre rest hind hpre hrest hf => ?_⟩
    · -- parseVal on a printed value
      cases v with
      | null =>
        have hskip : skipWs (pre ++ (printJson ind .null ++ rest)) =
            'n' :: ('u' :: 'l' :: 'l' :: rest) := by
          simp only [printJson, lit_null, List.cons_append, List.nil_append]
          rw [skipWs_append hpre]
          exact skipWs_cons_notWs (by decide) _
        simp only [parseVal, hskip]
        simp [dropLit]
      | bool b =>
        cases b with
        | true =>
          have hskip : skipWs (pre ++ (printJson ind (.bool true) ++ rest)) =
              't' :: ('r' :: 'u' :: 'e' :: rest) := by
            simp only [printJson, lit_true, List.cons_append, List.nil_append]
            rw [skipWs_append hpre]
            exact skipWs_cons_notWs (by decide) _
          simp only [parseVal, hskip]
          simp [dropLit]
        | false =>
          have hskip : skipWs (pre ++ (printJson ind (.bool false) ++ rest)) =
              'f' :: ('a' :: 'l' :: 's' :: 'e' :: rest) := by
            simp only [printJson, lit_false, List.cons_append, List.nil_append]
            rw [skipWs_append hpre]
            exact skipWs_cons_notWs (by decide) _
          simp only [parseVal, hskip]
          simp [dropLit]
      | num n =>
        cases n with
        | ofNat m =>
          obtain ⟨d, tl, hd10, heq⟩ := printNat_shape m
          obtain ⟨hws0, hq0, hn0, hlb0, ht0, hlc0, hf0, hm0, hbr1, hcm0, hbr2⟩ :=
            digit_facts (digitCh_isDigit ⟨d, hd10⟩)
          have hskip : skipWs (pre ++ (printJson ind (.num (.ofNat m)) ++ rest)) =
              digitCh d :: (tl ++ rest) := by
            simp only [printJson, printInt, heq, List.cons_append]
            rw [skipWs_append hpre]
            exact skipWs_cons_notWs hws0 _
          have hnum : parseNumTok false (digitCh d :: (tl ++ rest)) =
              some (.num (m : Int), rest) := by
            rw [show digitCh d :: (tl ++ rest) = (digitCh d :: tl) ++ rest from rfl,
              ← heq, parseNumTok_print hrest false m]
            simp
          simp only [parseVal, hskip]
          simp [hn0, ht0, hf0, hq0, hlb0, hlc0, hm0,
            digitCh_isDigit ⟨d, hd10⟩, hnum]
        | negSucc m =>
          obtain ⟨d, tl, hd10, heq⟩ := printNat_shape (m + 1)
          have hskip : skipWs (pre ++ (printJson ind (.num (.negSucc m)) ++ rest)) =
              '-' :: (printNat (m + 1) ++ rest) := by
            simp only [printJson, printInt, List.cons_append]
            rw [skipWs_append hpre]
            exact skipWs_cons_notWs (by decide) _
          have hnum2 : parseNumTok true (digitCh d :: (tl ++ rest)) =
              some (.num (Int.negSucc m), rest) := by
            rw [show digitCh d :: (tl ++ rest) = (digitCh d :: tl) ++ rest from rfl,
              ← heq, parseNumTok_print hrest true (m + 1)]
            simp [Int.negSucc_eq]
          simp only [parseVal, hskip, heq, List.cons_append]
          simp [digitCh_isDigit ⟨d, hd10⟩, hnum2, Int.negSucc_eq]
      | numF m s hm hs =>
        have hF : m.natAbs % 10 ^ s < 10 ^ s := Nat.mod_lt _ (by positivity)
        by_cases hneg : m < 0
        · obtain ⟨d, tl, hd10, heq⟩ := printNat_shape (m.natAbs / 10 ^ s)
          have hskip : skipWs (pre ++ (printJson ind (.numF m s hm hs) ++ rest)) =
              '-' :: (printNat (m.natAbs / 10 ^ s) ++
                ('.' :: (printNatPad s (m.natAbs % 10 ^ s) ++ rest))) := by
            simp only [printJson, printFrac, hneg, if_true, List.cons_append,
              List.append_assoc, List.nil_append]
            rw [skipWs_append hpre]
            exact skipWs_cons_notWs (by decide) _
          have hnum : parseNumTok true (digitCh d :: (tl ++
              ('.' :: (printNatPad s (m.natAbs % 10 ^ s) ++ rest)))) =
              some (.numF m s hm hs, rest) := by
            rw [show digitCh d :: (tl ++
                ('.' :: (printNatPad s (m.natAbs % 10 ^ s) ++ rest))) =
              (digitCh d :: tl) ++
                ('.' :: (printNatPad s (m.natAbs % 10 ^ s) ++ rest)) from rfl,
              ← heq,
              parseNumTok_frac hrest true (m.natAbs / 10 ^ s) (m.natAbs % 10 ^ s)
                s hs hF,
              mkNumber_frac true m s hm hs (by simpa using hneg)]
          simp only [parseVal, hskip, heq, List.cons_append]
          simp [digitCh_isDigit ⟨d, hd10⟩, hnum]
        · obtain ⟨d, tl, hd10, heq⟩ := printNat_shape (m.natAbs / 10 ^ s)
          obtain ⟨hws0, hq0, hn0, hlb0, ht0, hlc0, hf0, hm0, hbr1, hcm0, hbr2⟩ :=
            digit_facts (digitCh_isDigit ⟨d, hd10⟩)
          have hskip : skipWs (pre ++ (printJson ind (.numF m s hm hs) ++ rest)) =
              digitCh d :: (tl ++
                ('.' :: (printNatPad s (m.natAbs % 10 ^ s) ++ rest))) := by
            simp only [printJson, printFrac, hneg, if_false, List.nil_append, heq,
              List.cons_append, List.append_assoc]
            rw [skipWs_append hpre]
            exact skipWs_cons_notWs hws0 _
          have hnum : parseNumTok false (digitCh d :: (tl ++
              ('.' :: (printNatPad s (m.natAbs % 10 ^ s) ++ rest)))) =
              some (.numF m s hm hs, rest) := by
            rw [show digitCh d :: (tl ++
                ('.' :: (printNatPad s (m.natAbs % 10 ^ s) ++ rest))) =
              (digitCh d :: tl) ++
                ('.' :: (printNatPad s (m.natAbs % 10 ^ s) ++ rest)) from rfl,
              ← heq,
              parseNumTok_frac hrest false (m.natAbs / 10 ^ s) (m.natAbs % 10 ^ s)
                s hs hF,
              mkNumber_frac false m s hm hs (by simp [hneg])]
          simp only [parseVal, hskip]
          simp [hn0, ht0, hf0, hq0, hlb0, hlc0, hm0,
            digitCh_isDigit ⟨d, hd10⟩, hnum]
      | str s =>
        have hskip : skipWs (pre ++ (printJson ind (.str s) ++ rest)) =
            '"' :: (escList s.data ++ ('"' :: rest)) := by
          simp only [printJson, quoteStr, List.cons_append, List.append_assoc,
            List.nil_append]
          rw [skipWs_append hpre]
          exact skipWs_cons_notWs (by decide) _
        simp only [parseVal, hskip]
        simp [strBody_rt]
      | arr xsAll =>
        cases xsAll with
        | nil =>
          have hskip : skipWs (pre ++ (printJson ind (.arr []) ++ rest)) =
              '[' :: (']' :: rest) := by
            simp only [printJson, List.cons_append, List.nil_append]
            rw [skipWs_append hpre]
            exact skipWs_cons_notWs (by decide) _
          have hr1 : skipWs (']' :: rest) = ']' :: rest :=
            skipWs_cons_notWs (by decide) _
          simp only [parseVal, hskip]
          simp [hr1]
        | cons x xs =>
          obtain ⟨c0, tl0, heq0, hgood⟩ := printJson_shape (ind ++ sp2) x
          have hc0ws := tokenHead_ws hgood
          have hc0br := tokenHead_ne_rb hgood
          simp only [jw, jwList] at hf
          have hjx : jw x ≤ N := by have := jwList_pos xs; omega
          have hjxs : jwList xs ≤ N := by have := jw_pos x; omega
          have hskip : skipWs (pre ++ (printJson ind (.arr (x :: xs)) ++ rest)) =
              '[' :: ('\n' :: ((ind ++ sp2) ++ (printJson (ind ++ sp2) x ++
                (printArrRest (ind ++ sp2) xs ++ ('\n' :: (ind ++ (']' :: rest))))))) := by
            simp only [printJson, List.cons_append, List.append_assoc, List.nil_append]
            rw [skipWs_append hpre]
            exact skipWs_cons_notWs (by decide) _
          have hr1 : skipWs ('\n' :: ((ind ++ sp2) ++ (printJson (ind ++ sp2) x ++
              (printArrRest (ind ++ sp2) xs ++ ('\n' :: (ind ++ (']' :: rest))))))) =
              printJson (ind ++ sp2) x ++
                (printArrRest (ind ++ sp2) xs ++ ('\n' :: (ind ++ (']' :: rest)))) := by
            rw [show ('\n' :: ((ind ++ sp2) ++ (printJson (ind ++ sp2) x ++
              (printArrRest (ind ++ sp2) xs ++ ('\n' :: (ind ++ (']' :: rest))))))) =
              ('\n' :: (ind ++ sp2)) ++ (printJson (ind ++ sp2) x ++
              (printArrRest (ind ++ sp2) xs ++ ('\n' :: (ind ++ (']' :: rest)))))
              from by simp]
            rw [skipWs_append (wsOnly_cons (by decide) (wsOnly_append hind wsOnly_sp2))]
            rw [heq0]
            exact skipWs_cons_notWs hc0ws _
          have hx : parseVal N (printJson (ind ++ sp2) x ++
              (printArrRest (ind ++ sp2) xs ++ ('\n' :: (ind ++ (']' :: rest))))) =
              some (x, printArrRest (ind ++ sp2) xs ++ ('\n' :: (ind ++ (']' :: rest)))) := by
            have := ihV x (ind ++ sp2) []
              (printArrRest (ind ++ sp2) xs ++ ('\n' :: (ind ++ (']' :: rest))))
              (wsOnly_append hind wsOnly_sp2) wsOnly_nil
              (hdOk_arrRest (ind ++ sp2) ind rest xs) hjx
            simpa using this
          have hxs := ihA xs (ind ++ sp2) ind rest
            (wsOnly_append hind wsOnly_sp2) hind hjxs
          have hhd1 : ¬(printJson (ind ++ sp2) x).head? = some ']' := by
            rw [heq0]; simp [hc0br]
          have hemp : printJson (ind ++ sp2) x ≠ [] := by rw [heq0]; simp
          simp only [parseVal, hskip, hr1]
          simp [hhd1, hemp, hx, hxs]
      | obj fsAll =>
        cases fsAll with
        | nil =>
          have hskip : skipWs (pre ++ (printJson ind (.obj []) ++ rest)) =
              '{' :: ('}' :: rest) := by
            simp only [printJson, List.cons_append, List.nil_append]
            rw [skipWs_append hpre]
            exact skipWs_cons_notWs (by decide) _
          have hr1 : skipWs ('}' :: rest) = '}' :: rest :=
            skipWs_cons_notWs (by decide) _
          simp only [parseVal, hskip]
          simp [hr1]
        | cons f fs =>
          obtain ⟨k, v⟩ := f
          simp only [jw, jwObj] at hf
          have hjv : jw v + 1 ≤ N := by have := jwObj_pos fs; omega
          have hjfs : jwObj fs ≤ N := by have := jw_pos v; omega
          have hskip : skipWs (pre ++ (printJson ind (.obj ((k, v) :: fs)) ++ rest)) =
              '{' :: ('\n' :: ((ind ++ sp2) ++ (printField (ind ++ sp2) (k, v) ++
                (printObjRest (ind ++ sp2) fs ++ ('\n' :: (ind ++ ('}' :: rest))))))) := by
            simp only [printJson, List.cons_append, List.append_assoc, List.nil_append]
            rw [skipWs_append hpre]
            exact skipWs_cons_notWs (by decide) _
          have hr1 : skipWs ('\n' :: ((ind ++ sp2) ++ (printField (ind ++ sp2) (k, v) ++
              (printObjRest (ind ++ sp2) fs ++ ('\n' :: (ind ++ ('}' :: rest))))))) =
              '"' :: ((escList k.data ++ ('"' :: (':' :: ' ' :: printJson (ind ++ sp2) v))) ++
                (printObjRest (ind ++ sp2) fs ++ ('\n' :: (ind ++ ('}' :: rest))))) := by
            rw [show ('\n' :: ((ind ++ sp2) ++ (printField (ind ++ sp2) (k, v) ++
              (printObjRest (ind ++ sp2) fs ++ ('\n' :: (ind ++ ('}' :: rest))))))) =
              ('\n' :: (ind ++ sp2)) ++ (printField (ind ++ sp2) (k, v) ++
              (printObjRest (ind ++ sp2) fs ++ ('\n' :: (ind ++ ('}' :: rest)))))
              from by simp]
            rw [skipWs_append (wsOnly_cons (by decide) (wsOnly_append hind wsOnly_sp2))]
            simp only [printField, quoteStr, List.cons_append, List.append_assoc]
            exact skipWs_cons_notWs (by decide) _
          have hfs := ihO fs (ind ++ sp2) ind rest
            (wsOnly_append hind wsOnly_sp2) hind hjfs
          have hmem2 : parseMember N ('"' :: (escList k.data ++
              ('"' :: (':' :: (' ' :: (printJson (ind ++ sp2) v ++
              (printObjRest (ind ++ sp2) fs ++ ('\n' :: (ind ++ ('}' :: rest)))))))))) =
              some ((k, v), printObjRest (ind ++ sp2) fs ++ ('\n' :: (ind ++ ('}' :: rest)))) := by
            have h0 := ihM k v (ind ++ sp2) []
              (printObjRest (ind ++ sp2) fs ++ ('\n' :: (ind ++ ('}' :: rest))))
              (wsOnly_append hind wsOnly_sp2) wsOnly_nil
              (hdOk_objRest (ind ++ sp2) ind rest fs) hjv
            simpa [printField, quoteStr] using h0
          simp only [parseVal, hskip, hr1]
          simp [hmem2, hfs]
    · -- parseArrTail on printed later elements
      cases xs with
      | nil =>
        have hskip : skipWs (printArrRest ind [] ++ ('\n' :: (ind2 ++ (']' :: rest)))) =
            ']' :: rest := by
          simp only [printArrRest, List.nil_append]
          rw [show ('\n' :: (ind2 ++ (']' :: rest))) = ('\n' :: ind2) ++ (']' :: rest)
            from by simp]
          rw [skipWs_append (wsOnly_cons (by decide) hind2)]
          exact skipWs_cons_notWs (by decide) _
        simp only [parseArrTail, hskip]
        simp
      | cons y ys =>
        simp only [jwList] at hf
        have hjy : jw y ≤ N := by have := jwList_pos ys; omega
        have hjys : jwList ys ≤ N := by have := jw_pos y; omega
        have hskip : skipWs (printArrRest ind (y :: ys) ++ ('\n' :: (ind2 ++ (']' :: rest)))) =
            ',' :: ('\n' :: (ind ++ (printJson ind y ++
              (printArrRest ind ys ++ ('\n' :: (ind2 ++ (']' :: rest))))))) := by
          simp only [printArrRest, List.cons_append, List.append_assoc]
          exact skipWs_cons_notWs (by decide) _
        have hy : parseVal N ('\n' :: (ind ++ (printJson ind y ++
            (printArrRest ind ys ++ ('\n' :: (ind2 ++ (']' :: rest))))))) =
            some (y, printArrRest ind ys ++ ('\n' :: (ind2 ++ (']' :: rest)))) := by
          have := ihV y ind ('\n' :: ind)
            (printArrRest ind ys ++ ('\n' :: (ind2 ++ (']' :: rest))))
            hind (wsOnly_cons (by decide) hind)
            (hdOk_arrRest ind ind2 rest ys) hjy
          simpa using this
        have hys := ihA ys ind ind2 rest hind hind2 hjys
        simp only [parseArrTail, hskip]
        simp [hy, hys]
    · -- parseObjTail on printed later members
      cases fs with
      | nil =>
        have hskip : skipWs (printObjRest ind [] ++ ('\n' :: (ind2 ++ ('}' :: rest)))) =
            '}' :: rest := by
          simp only [printObjRest, List.nil_append]
          rw [show ('\n' :: (ind2 ++ ('}' :: rest))) = ('\n' :: ind2) ++ ('}' :: rest)
            from by simp]
          rw [skipWs_append (wsOnly_cons (by decide) hind2)]
          exact skipWs_cons_notWs (by decide) _
        simp only [parseObjTail, hskip]
        simp
      | cons f fs =>
        obtain ⟨k, v⟩ := f
        simp only [jwObj] at hf
        have hjv : jw v + 1 ≤ N := by have := jwObj_pos fs; omega
        have hjfs : jwObj fs ≤ N := by have := jw_pos v; omega
        have hskip : skipWs (printObjRest ind ((k, v) :: fs) ++ ('\n' :: (ind2 ++ ('}' :: rest)))) =
            ',' :: ('\n' :: (ind ++ (printField ind (k, v) ++
              (printObjRest ind fs ++ ('\n' :: (ind2 ++ ('}' :: rest))))))) := by
          simp only [printObjRest, List.cons_append, List.append_assoc]
          exact skipWs_cons_notWs (by decide) _
        have hmem : parseMember N ('\n' :: (ind ++ (printField ind (k, v) ++
            (printObjRest ind fs ++ ('\n' :: (ind2 ++ ('}' :: rest))))))) =
            some ((k, v), printObjRest ind fs ++ ('\n' :: (ind2 ++ ('}' :: rest)))) := by
          have := ihM k v ind ('\n' :: ind)
            (printObjRest ind fs ++ ('\n' :: (ind2 ++ ('}' :: rest))))
            hind (wsOnly_cons (by decide) hind)
            (hdOk_objRest ind ind2 rest fs) hjv
          simpa using this
        have hfs2 := ihO fs ind ind2 rest hind hind2 hjfs
        simp only [parseObjTail, hskip]
        simp [hmem, hfs2]
    · -- parseMember on a printed field
      have hskip : skipWs (pre ++ (printField ind (k, v) ++ rest)) =
          '"' :: (escList k.data ++ ('"' :: (':' :: ' ' :: (printJson ind v ++ rest)))) := by
        simp only [printField, quoteStr, List.cons_append, List.append_assoc,
          List.nil_append]
        rw [skipWs_append hpre]
        exact skipWs_cons_notWs (by decide) _
      have hstr := strBody_rt k.data (':' :: ' ' :: (printJson ind v ++ rest))
      have hcolon : skipWs (':' :: ' ' :: (printJson ind v ++ rest)) =
          ':' :: (' ' :: (printJson ind v ++ rest)) :=
        skipWs_cons_notWs (by decide) _
      have hv : parseVal N (' ' :: (printJson ind v ++ rest)) = some (v, rest) := by
        have := ihV v ind [' '] rest hind
          (wsOnly_cons (by decide) wsOnly_nil) hrest (by omega)
        simpa using this
      simp only [parseMember, hskip]
      simp [hstr, hcolon, hv]

/-! ## The Store (`src/server.js` lines 7-33) -/

/-- `readBookings` (lines 15-23): reads and `JSON.parse`s the bookings
file; an absent/unreadable file (`file = none`) or a parse failure yields
the empty array.  The function returns whatever JSON value was parsed,
exactly as the JavaScript does. -/
def readBookings (file : Option String) : Json :=
  match file with
  | none => .arr []
  | some s =>
    match jsonParse s with
    | some v => v
    | none => .arr []

/-- `saveBookings` (lines 31-33): `JSON.stringify(bookings, null, 2)`
written to the bookings file; the returned string is the new file
content. -/
def saveBookings (bookings : List Json) : String :=
  String.mk (printJson [] (.arr bookings))

/-- Saving a collection and loading it back returns it unchanged (field
order, keys and values intact). -/
theorem loadSave (l : List Json) :
    readBookings (some (saveBookings l)) = .arr l := by
  have hlen : jw (.arr l) ≤ (printJson [] (.arr l)).length :=
    (lenGe (jw (.arr l))).1 [] (.arr l) (Nat.le_refl _)
  have hp := (parsePrint ((printJson [] (.arr l)).length + 1)).1 (.arr l) [] [] []
    wsOnly_nil wsOnly_nil hdOk_nil (by omega)
  simp only [List.nil_append, List.append_nil] at hp
  simp [readBookings, saveBookings, jsonParse, hp, skipWs]

/-! ## JavaScript value helpers used by the request handlers -/

/-- First binding of a key in an ordered field list (JavaScript object
property lookup; properties are unique in a parsed object). -/
def lookupField : List (String × Json) → String → Option Json
  | [], _ => none
  | (k0, v) :: fs, k => if k0 = k then some v else lookupField fs k

/-- JavaScript property read `v.key`: `none` models `undefined` (reading a
property of a non-object or a missing key). -/
def jsGet : Json → String → Option Json
  | .obj fs, k => lookupField fs k
  | _, _ => none

/-- JavaScript property write on an object: an existing key is updated in
place (keeping its position in property order), a new key is appended. -/
def objSet : List (String × Json) → String → Json → List (String × Json)
  | [], k, v => [(k, v)]
  | (k0, v0) :: fs, k, v =>
    if k0 = k then (k0, v) :: fs else (k0, v0) :: objSet fs k v

/-- JavaScript property assignment `v.key = x` in sloppy mode (the server
has no `"use strict"`), as it affects the value that is pushed and
persisted: on an object it sets the property; on `null` it throws a
`TypeError` (`none`); on a number, string or boolean it is a silent
no-op; on an array it sets a non-index own property, which
`JSON.stringify` discards, so the persisted array is unchanged.  The
in-memory read `data.id` that an array briefly exposes is modelled
separately by `idRead`. -/
def jsSetProp : Json → String → Json → Option Json
  | .obj fs, k, x => some (.obj (objSet fs k x))
  | .null, _, _ => none
  | other, _, _ => some other

/-- JavaScript strict equality `x === n` between a property read (left,
`none` = `undefined`) and the number `Number(idParam)` (right, `none` =
`NaN`).  Strict equality never coerces: only a number can equal a number,
and `NaN` (as well as `undefined`) equals nothing. -/
def jsStrictEq : Option Json → Option Int → Bool
  | some (.num m), some n => m == n
  | _, _ => false

/-- Result of JavaScript `Number(string)`: `NaN`, a signed infinity, an
integer, or a non-integer decimal `m / 10^s` in the same normalised shape
as `Json.numF` (`m` not divisible by 10, `s > 0`). -/
inductive NumVal where
  | nan : NumVal
  | inf : Bool → NumVal
  | intVal : Int → NumVal
  | nonIntVal : Int → Nat → NumVal
deriving DecidableEq

/-- The `StrWhiteSpaceChar` set trimmed by `Number(string)`: TAB, LF, VT,
FF, CR, SP, NBSP, the Unicode space separators, LS, PS, NNBSP, MMSP,
ideographic space and the BOM. -/
def jsWsChar (c : Char) : Bool :=
  c.toNat = 0x9 || c.toNat = 0xA || c.toNat = 0xB || c.toNat = 0xC ||
  c.toNat = 0xD || c.toNat = 0x20 || c.toNat = 0xA0 || c.toNat = 0x1680 ||
  (0x2000 ≤ c.toNat && c.toNat ≤ 0x200A) || c.toNat = 0x2028 ||
  c.toNat = 0x2029 || c.toNat = 0x202F || c.toNat = 0x205F ||
  c.toNat = 0x3000 || c.toNat = 0xFEFF

/-- Strip `StrWhiteSpace` from both ends of the string. -/
def jsTrim (l : List Char) : List Char :=
  ((l.dropWhile jsWsChar).reverse.dropWhile jsWsChar).reverse

/-- Accumulate digits of the given radix; `none` as soon as a character is
not a digit of that radix (the whole tail must be digits). -/
def radixAcc (dv : Char → Option Nat) (radix acc : Nat) : List Char → Option Nat
  | [] => some acc
  | c :: cs =>
    match dv c with
    | some d => radixAcc dv radix (acc * radix + d) cs
    | none => none

/-- Binary digit value. -/
def binVal (c : Char) : Option Nat :=
  if c = '0' then some 0 else if c = '1' then some 1 else none

/-- Octal digit value. -/
def octVal (c : Char) : Option Nat :=
  if '0' ≤ c ∧ c ≤ '7' then some (c.toNat - 48) else none

/-- Normalise an exact decimal `D / 10^s` into `NumVal`: divide out
factors of 10 (each step dropping one from the scale) until either the
scale is exhausted (an integer) or the mantissa is no longer divisible
by 10. -/
def mkNumVal (D : Int) : Nat → NumVal
  | 0 => .intVal D
  | k + 1 => if D % 10 = 0 then mkNumVal (D / 10) k else .nonIntVal D (k + 1)

/-- Exact value of the decimal literal
`[-] I . (fc digits worth fv) e ex` as a `NumVal` (the conversion is kept
exact rather than rounded to binary64; see the header note). -/
def mkNumValOf (neg : Bool) (I fv fc : Nat) (ex : Int) : NumVal :=
  let D0 : Int := (I * 10 ^ fc + fv : Nat)
  let D := if neg then -D0 else D0
  let net := ex - (fc : Int)
  if 0 ≤ net then .intVal (D * 10 ^ net.toNat) else mkNumVal D (-net).toNat

/-- Flip the sign of a converted number (`-` prefix of a
`StrDecimalLiteral`). -/
def negVal : NumVal → NumVal
  | .nan => .nan
  | .inf b => .inf (!b)
  | .intVal n => .intVal (-n)
  | .nonIntVal m s => .nonIntVal (-m) s

/-- The unsigned part of a `StrDecimalLiteral`: integer digits with an
optional fraction, or a bare fraction `.digits`; leading zeros are allowed
(unlike JSON).  Returns the integer digits, fraction value, fraction digit
count and the unconsumed rest; `none` when no digit is found. -/
def decMantissa (cs : List Char) : Option (Nat × Nat × Nat × List Char) :=
  match cs with
  | '.' :: rest =>
    match parseDigitsCnt 0 0 rest with
    | (fv, fc, r) => if fc = 0 then none else some (0, fv, fc, r)
  | _ =>
    match parseDigitsCnt 0 0 cs with
    | (iv, ic, r1) =>
      if ic = 0 then none
      else
        match r1 with
        | '.' :: rest =>
          match parseDigitsCnt 0 0 rest with
          | (fv, fc, r) => some (iv, fv, fc, r)
        | _ => some (iv, 0, 0, r1)

/-- An unsigned `StrDecimalLiteral` that must consume the whole input:
`Infinity`, or a decimal mantissa with an optional exponent part.  `none`
means no such literal covers the input (`NaN` once signs are applied). -/
def strDec (cs : List Char) : Option NumVal :=
  if cs = 'I' :: 'n' :: 'f' :: 'i' :: 'n' :: 'i' :: 't' :: 'y' :: [] then
    some (.inf false)
  else
    match decMantissa cs with
    | none => none
    | some (I, fv, fc, r1) =>
      match parseExpPart r1 with
      | (ex, r2) => if r2 = [] then some (mkNumValOf false I fv fc ex) else none

/-- JavaScript `Number(string)` (ECMA-262 `StringToNumber`): trim
`StrWhiteSpace`; an empty remainder is `0`; `0x`/`0o`/`0b` prefixes start
unsigned hex/octal/binary integer literals (at least one digit, nothing
after); otherwise an optionally signed `StrDecimalLiteral`
(`Infinity`, or digits with optional fraction and exponent, leading zeros
allowed); anything else is `NaN`.  Decimal values are kept exact instead
of being rounded to the nearest binary64. -/
def toNumber (s : String) : NumVal :=
  match jsTrim s.data with
  | [] => .intVal 0
  | '-' :: rest => ((strDec rest).map negVal).getD .nan
  | '+' :: rest => (strDec rest).getD .nan
  | '0' :: c :: rest =>
    if c = 'x' ∨ c = 'X' then
      if rest = [] then .nan
      else ((radixAcc hexVal 16 0 rest).map (fun n => .intVal (n : Int))).getD .nan
    else if c = 'o' ∨ c = 'O' then
      if rest = [] then .nan
      else ((radixAcc octVal 8 0 rest).map (fun n => .intVal (n : Int))).getD .nan
    else if c = 'b' ∨ c = 'B' then
      if rest = [] then .nan
      else ((radixAcc binVal 2 0 rest).map (fun n => .intVal (n : Int))).getD .nan
    else (strDec ('0' :: c :: rest)).getD .nan
  | other => (strDec other).getD .nan

/-- The integer projection of `Number(s)`: `some n` exactly when the
conversion yields the integer `n`; `none` covers `NaN`, the infinities
and non-integer values. -/
def jsToNumber (s : String) : Option Int :=
  match toNumber s with
  | .intVal n => some n
  | _ => none

/-- JavaScript strict equality `x === v` between a property read (left,
`none` = `undefined`) and the full result of `Number(idParam)` (right).
Only number values can be equal: an integer against an integer record id,
a non-integer decimal against a non-integer record id (both sides are in
the same normalised `m / 10^s` shape, so value equality is componentwise);
`NaN` and the infinities equal nothing a JSON store can hold. -/
def jsStrictEqN : Option Json → NumVal → Bool
  | some (.num m), .intVal n => m == n
  | some (.numF m s _ _), .nonIntVal n t => m == n && s == t
  | _, _ => false

/-- `URLSearchParams.get`: first value bound to the key, `null` if
absent. -/
def searchParamsGet : List (String × String) → String → Option String
  | [], _ => none
  | (k0, v) :: q, k => if k0 = k then some v else searchParamsGet q k

/-! ## The API router (`src/server.js` lines 90-183) -/

/-- Response of `POST /api/book`: 200 `{success: true, id: <data.id>}`
(the `id` field is the property read `data.id` after the server
assignments; `none` = `undefined`, which `JSON.stringify` drops), or
400 `{error: 'Dados inválidos'}` from the `catch`. -/
inductive BookResp where
  | ok : Option Json → BookResp
  | invalid : BookResp

/-- HTTP status of a `POST /api/book` response (lines 112, 115). -/
def BookResp.status : BookResp → Nat
  | .ok _ => 200
  | .invalid => 400

/-- Response of `/api/delete`: 400 `{error: 'ID não especificado'}`,
404 `{error: 'Registro não encontrado'}`, or 200 `{success: true}`. -/
inductive DeleteResp where
  | missingId : DeleteResp
  | notFound : DeleteResp
  | success : DeleteResp
deriving DecidableEq

/-- HTTP status of an `/api/delete` response (lines 134, 143, 148). -/
def DeleteResp.status : DeleteResp → Nat
  | .missingId => 400
  | .notFound => 404
  | .success => 200

/-- The property read `data.id` of line 113 on the in-memory value after
both assignments: on an array it sees the non-index own property set on
line 108 (worth `Date.now()`), which exists in memory even though
`JSON.stringify` will drop it from the persisted form; on an object it is
the stored field; on a primitive it is `undefined`. -/
def idRead (d2 : Json) (now : Int) : Option Json :=
  match d2 with
  | .arr _ => some (.num now)
  | _ => jsGet d2 "id"

/-- The `POST /api/book` handler body (lines 103-118): parse the body,
read the store, assign `data.id = Date.now()` and
`data.timestamp = new Date().toISOString()`, push, save, respond 200; any
throw inside the `try` (parse failure, property assignment on `null`,
`push` on a non-array store value, or a failing `writeFileSync`) lands in
the `catch` and yields the 400 response.  Returns the response and the
resulting file state. -/
def handleBook (body : String) (now : Int) (iso : String) (file : Option String)
    (saveOk : Bool) : BookResp × Option String :=
  match jsonParse body with
  | none => (.invalid, file)
  | some data =>
    match readBookings file with
    | .arr bookings =>
      match jsSetProp data "id" (.num now) with
      | none => (.invalid, file)
      | some d1 =>
        match jsSetProp d1 "timestamp" (.str iso) with
        | none => (.invalid, file)
        | some d2 =>
          if saveOk then
            (.ok (idRead d2 now), some (saveBookings (bookings ++ [d2])))
          else (.invalid, file)
    | _ => (.invalid, file)

/-- `sendResponse` of the `/api/delete` route (lines 132-150): if the
captured `idParam` is `null` or empty, 400; otherwise filter the loaded
bookings by `b.id !== Number(idParam)`; if nothing was removed, 404 and no
save; otherwise save and 200.  `none` as overall result models an uncaught
exception (filtering a non-array store value, or `saveBookings`
throwing when `saveOk = false`), in which case no response is sent. -/
def sendResponse (idParam : Option String) (file : Option String)
    (saveOk : Bool) : Option (DeleteResp × Option String) :=
  match idParam with
  | none => some (.missingId, file)
  | some p =>
    if p = "" then some (.missingId, file)
    else
      let idNum := toNumber p
      match readBookings file with
      | .arr bookings =>
        let kept := bookings.filter (fun b => !(jsStrictEqN (jsGet b "id") idNum))
        if kept.length = bookings.length then some (.notFound, file)
        else if saveOk then some (.success, some (saveBookings kept))
        else none
      | _ => none

/-- `GET /api/delete` (line 165): `sendResponse` on the query-string
`id`. -/
def handleDeleteGet (query : List (String × String)) (file : Option String)
    (saveOk : Bool) : Option (DeleteResp × Option String) :=
  sendResponse (searchParamsGet query "id") file saveOk

/-- `POST /api/delete` (lines 151-163).  The handler reads the body and,
when it parses with a truthy `id`, calls `parsedUrl.searchParams.set('id',
data.id)` (line 158) — but `idParam` was already extracted on line 131 and
`sendResponse` closes over that `const`, never re-reading
`parsedUrl.searchParams`, so the body cannot influence the response; a
body parse failure is likewise swallowed (lines 159-161).  The embedding
therefore passes the captured query-string `idParam` through unchanged,
with the body an unused argument. -/
def handleDeletePost (query : List (String × String)) (body : String)
    (file : Option String) (saveOk : Bool) : Option (DeleteResp × Option String) :=
  let idParam := searchParamsGet query "id"
  let _deadBodyOverride := body
  sendResponse idParam file saveOk

/-- Body accumulation of `POST /api/book` (lines 95-102): chunks are
appended; as soon as the buffer exceeds 1,000,000 units the connection is
destroyed (`none`), so no `end` event delivers a body. -/
def bookReadBody (chunks : List (List Char)) : Option (List Char) :=
  chunks.foldl
    (fun acc c =>
      acc.bind (fun b =>
        let b2 := b ++ c
        if b2.length > 1000000 then none else some b2))
    (some [])

/-- Body accumulation of `POST /api/delete` (line 154): chunks are
appended with no size check whatsoever. -/
def deleteReadBody (chunks : List (List Char)) : List Char :=
  chunks.foldl (fun acc c => acc ++ c) []

/-! ## Supporting lemmas about the helpers -/

theorem lookupField_objSet_same (fs : List (String × Json)) (k : String) (v : Json) :
    lookupField (objSet fs k v) k = some v := by
  induction fs with
  | nil => simp [objSet, lookupField]
  | cons f fs ih =>
    obtain ⟨k0, v0⟩ := f
    by_cases h : k0 = k
    · simp [objSet, lookupField, h]
    · simp [objSet, lookupField, h, ih]

theorem lookupField_objSet_ne (fs : List (String × Json)) {k2 k : String}
    (h : k2 ≠ k) (v2 : Json) :
    lookupField (objSet fs k2 v2) k = lookupField fs k := by
  induction fs with
  | nil => simp [objSet, lookupField, h]
  | cons f fs ih =>
    obtain ⟨k0, v0⟩ := f
    by_cases h0 : k0 = k2
    · subst h0
      simp [objSet, lookupField, h]
    · simp only [objSet, if_neg h0]
      by_cases h1 : k0 = k
      · simp [lookupField, h1]
      · simp [lookupField, h1, ih]

/-- `NaN` is strictly equal to nothing. -/
theorem jsStrictEq_nan (x : Option Json) : jsStrictEq x none = false := by
  cases x with
  | none => rfl
  | some j => cases j <;> rfl

/-- A string-valued `id` field is strictly equal to no number. -/
theorem jsStrictEq_str (s : String) (idN : Option Int) :
    jsStrictEq (some (.str s)) idN = false := by
  cases idN <;> rfl

/-- `NaN` strictly equals nothing. -/
theorem jsStrictEqN_nan (x : Option Json) : jsStrictEqN x .nan = false := by
  match x with
  | none => rfl
  | some j => cases j <;> rfl

/-- Against an integer conversion result, full strict equality coincides
with the integer-only comparison. -/
theorem jsStrictEqN_int (x : Option Json) (n : Int) :
    jsStrictEqN x (.intVal n) = jsStrictEq x (some n) := by
  match x with
  | none => rfl
  | some j => cases j <;> rfl

/-- When the integer projection of `Number(p)` is `some n`, the conversion
itself was the integer `n`. -/
theorem toNumber_int {p : String} {n : Int} (h : jsToNumber p = some n) :
    toNumber p = .intVal n := by
  simp only [jsToNumber] at h
  cases htn : toNumber p <;> rw [htn] at h <;> simp_all

/-- Filtering splits the length of a list. -/
theorem filter_not_length (q : α → Bool) (xs : List α) :
    (xs.filter fun a => !(q a)).length + (xs.filter q).length = xs.length := by
  induction xs with
  | cons x xs ih =>
    by_cases h : q x = true <;>
      simp only [List.filter_cons, h, Bool.not_true, Bool.not_false,
        Bool.not_eq_true] at * <;>
      simp [h, List.length_cons] <;> omega
  | nil => rfl

theorem bookBody_none (chunks : List (List Char)) :
    List.foldl
      (fun acc c => Option.bind acc (fun b =>
        let b2 := b ++ c
        if b2.length > 1000000 then none else some b2))
      none chunks = none := by
  induction chunks with
  | nil => rfl
  | cons c cs ih => simpa using ih

theorem bookBody_aux : ∀ (chunks : List (List Char)) (acc b : List Char),
    acc.length ≤ 1000000 →
    List.foldl
      (fun acc c => Option.bind acc (fun b =>
        let b2 := b ++ c
        if b2.length > 1000000 then none else some b2))
      (some acc) chunks = some b →
    b.length ≤ 1000000 := by
  intro chunks
  induction chunks with
  | nil =>
    intro acc b h heq
    simp only [List.foldl_nil, Option.some.injEq] at heq
    exact heq ▸ h
  | cons c cs ih =>
    intro acc b h heq
    simp only [List.foldl_cons] at heq
    rw [show ((some acc).bind (fun b =>
        let b2 := b ++ c
        if b2.length > 1000000 then none else some b2) : Option (List Char)) =
      if (acc ++ c).length > 1000000 then none else some (acc ++ c) from rfl] at heq
    split at heq
    · rw [bookBody_none] at heq
      cases heq
    · rename_i hle
      exact ih (acc ++ c) b (by omega) heq

theorem deleteBody_aux : ∀ (chunks : List (List Char)) (acc : List Char),
    (List.foldl (fun acc c => acc ++ c) acc chunks).length =
      acc.length + (chunks.map List.length).sum := by
  intro chunks
  induction chunks with
  | nil => intro acc; simp
  | cons c cs ih =>
    intro acc
    simp [ih, List.length_append]
    omega

/-- A parsed JSON value that is a bare number, string or boolean. -/
def isPrimitive : Json → Bool
  | .num _ => true
  | .numF _ _ _ _ => true
  | .str _ => true
  | .bool _ => true
  | _ => false

/-! ## The claims -/

/-- Claim C1 (code bug): the spec and the code's own comment say a POST
body with an `id` overrides the query parameter, but `sendResponse` closes
over the `idParam` captured on line 131 before the body is read, so the
`searchParams.set` on line 158 is dead.  Evaluated at the failing input:
query `id=1`, body `{"id": 2}`, store `[{"id": 2}]` — the claim demands
that record 2 be deleted with 200, but the code looks up id 1, finds no
match, answers 404 and leaves the store untouched. -/
theorem c1_body_id_ignored :
    handleDeletePost [("id", "1")] "\x7b\"id\": 2\x7d"
        (some "[\x7b\"id\": 2\x7d]") true =
      some (.notFound, some "[\x7b\"id\": 2\x7d]") ∧
    DeleteResp.status .notFound = 404 := ⟨rfl, rfl⟩

/-- Claim C2 (counterexample): a delete whose `id` parameter is present
but unparseable (`"abc"`) is answered 404 record-not-found, not the 400
missing-id response the claim requires. -/
theorem c2_counterexample :
    sendResponse (some "abc") none true = some (.notFound, none) ∧
    DeleteResp.status .notFound ≠ 400 := ⟨rfl, by decide⟩

/-- Claim C2 (amended): only an absent or empty `id` parameter yields the
400 missing-id response; a present but non-numeric parameter converts to
`NaN`, which strictly equals nothing, so every record is kept and the
response is 404 record-not-found. -/
theorem c2_amended_thm :
    (∀ file saveOk, sendResponse none file saveOk = some (.missingId, file)) ∧
    (∀ file saveOk, sendResponse (some "") file saveOk = some (.missingId, file)) ∧
    (∀ p file bookings saveOk, p ≠ "" → toNumber p = .nan →
      readBookings file = .arr bookings →
      sendResponse (some p) file saveOk = some (.notFound, file)) ∧
    DeleteResp.status .missingId = 400 ∧ DeleteResp.status .notFound = 404 := by
  refine ⟨fun file saveOk => rfl, fun file saveOk => rfl,
    fun p file bookings saveOk hp hn hread => ?_, rfl, rfl⟩
  simp only [sendResponse, hn, hread, if_neg hp]
  simp [jsStrictEqN_nan]

/-- Claim C2 (witness): the amended theorem applied at `id = "abc"` on an
empty store. -/
theorem c2_witness : sendResponse (some "abc") none true = some (.notFound, none) :=
  c2_amended_thm.2.2.1 "abc" none [] true (by decide) rfl rfl

/-- Claim C3 (counterexample): the body `5` is valid JSON but not an
object; the claim requires a 400 rejection with no storage mutation, but
the code accepts it — sloppy-mode property assignment on a number is a
silent no-op — answering 200 and appending `5` to the store. -/
theorem c3_counterexample :
    handleBook "5" 7 "T" none true = (.ok none, some (saveBookings [Json.num 5])) ∧
    BookResp.status (.ok none) = 200 := ⟨rfl, rfl⟩

/-- Claim C3 (amended): create rejects with 400 and leaves the store
unchanged exactly when the body fails to parse or parses to JSON `null`
(the `data.id` assignment throws on `null`); a body parsing to a bare
number, string or boolean is accepted — appended to the collection
unchanged, with a 200 response whose `id` field is `undefined`.  An array
body is likewise accepted: the response echoes `id = Date.now()` (the
in-memory non-index property), while the persisted element is the array
unchanged, `JSON.stringify` discarding that property. -/
theorem c3_amended_thm :
    (∀ body now iso file, jsonParse body = none →
      handleBook body now iso file true = (.invalid, file)) ∧
    (∀ body now iso file, jsonParse body = some .null →
      handleBook body now iso file true = (.invalid, file)) ∧
    (∀ body v now iso file bookings, jsonParse body = some v →
      readBookings file = .arr bookings → isPrimitive v = true →
      handleBook body now iso file true =
        (.ok (jsGet v "id"), some (saveBookings (bookings ++ [v])))) ∧
    (∀ body xs now iso file bookings, jsonParse body = some (.arr xs) →
      readBookings file = .arr bookings →
      handleBook body now iso file true =
        (.ok (some (.num now)), some (saveBookings (bookings ++ [Json.arr xs])))) := by
  refine ⟨fun body now iso file h => by simp [handleBook, h],
    fun body now iso file h => ?_,
    fun body v now iso file bookings h hread hprim => ?_,
    fun body xs now iso file bookings h hread => ?_⟩
  · simp only [handleBook, h]
    split <;> simp [jsSetProp]
  · cases v with
    | num n => simp [handleBook, h, hread, jsSetProp, idRead]
    | numF m s hm hs => simp [handleBook, h, hread, jsSetProp, idRead]
    | str s => simp [handleBook, h, hread, jsSetProp, idRead]
    | bool b => simp [handleBook, h, hread, jsSetProp, idRead]
    | null => simp [isPrimitive] at hprim
    | arr xs => simp [isPrimitive] at hprim
    | obj fs => simp [isPrimitive] at hprim
  · simp [handleBook, h, hread, jsSetProp, idRead]

/-- Claim C3 (witness): the amended theorem applied at body `5` and at
body `[]` on an empty store. -/
theorem c3_witness :
    handleBook "5" 7 "T" none true =
      (.ok (jsGet (Json.num 5) "id"), some (saveBookings ([] ++ [Json.num 5]))) ∧
    handleBook "[]" 7 "T" none true =
      (.ok (some (.num 7)), some (saveBookings ([] ++ [Json.arr []]))) :=
  ⟨c3_amended_thm.2.2.1 "5" (Json.num 5) 7 "T" none [] rfl rfl rfl,
    c3_amended_thm.2.2.2 "[]" [] 7 "T" none [] rfl rfl⟩

/-- Claim C4 (counterexample): when `saveBookings` throws, create answers
400 invalid-payload — a client error, not the 500 StorageError the claim
requires — and delete sends no response at all. -/
theorem c4_counterexample :
    handleBook "\x7b\x7d" 7 "T" none false = (.invalid, none) ∧
    BookResp.status .invalid = 400 ∧
    sendResponse (some "2") (some "[\x7b\"id\": 2\x7d]") false = none :=
  ⟨rfl, rfl, rfl⟩

/-- Claim C4 (amended): a save failure is never reported as a 500.  In
create it is caught by the handler's catch-all and reported as the same
HTTP 400 invalid-payload used for parse errors (so it is not silently
swallowed, but it is a client-error status); in delete the exception
propagates out of `sendResponse` uncaught and no structured response is
sent. -/
theorem c4_amended_thm :
    (∀ body v now iso file bookings, jsonParse body = some v → v ≠ .null →
      readBookings file = .arr bookings →
      handleBook body now iso file false = (.invalid, file)) ∧
    (∀ p n file bookings, p ≠ "" → jsToNumber p = some n →
      readBookings file = .arr bookings →
      (bookings.filter (fun b => !(jsStrictEq (jsGet b "id") (some n)))).length ≠
        bookings.length →
      sendResponse (some p) file false = none) ∧
    BookResp.status .invalid = 400 := by
  refine ⟨fun body v now iso file bookings h hnull hread => ?_,
    fun p n file bookings hp hn hread hne => ?_, rfl⟩
  · simp only [handleBook, h, hread]
    cases v with
    | null => exact absurd rfl hnull
    | num n => simp [jsSetProp]
    | numF m s hm hs => simp [jsSetProp]
    | str s => simp [jsSetProp]
    | bool b => simp [jsSetProp]
    | arr xs => simp [jsSetProp]
    | obj fs => simp [jsSetProp]
  · simp only [sendResponse, toNumber_int hn, hread, if_neg hp, jsStrictEqN_int]
    simp [hne]

/-- Claim C4 (witness): the amended theorem's delete half applied at
`id = "2"` on a store containing record 2 with a failing save. -/
theorem c4_witness : sendResponse (some "2") (some "[\x7b\"id\": 2\x7d]") false = none :=
  c4_amended_thm.2.1 "2" 2 (some "[\x7b\"id\": 2\x7d]") [Json.obj [("id", Json.num 2)]]
    (by decide) rfl rfl (by decide)

/-- Claim C5 (counterexample): the `POST /api/delete` body reader
accumulates a 1,000,001-byte chunk in full — nothing aborts the
connection — so not every body-reading path is capped at 1,000,000
bytes. -/
theorem c5_counterexample :
    deleteReadBody [List.replicate 1000001 'a'] = List.replicate 1000001 'a' ∧
    1000000 < (deleteReadBody [List.replicate 1000001 'a']).length := by
  have h1 : deleteReadBody [List.replicate 1000001 'a'] =
      List.replicate 1000001 'a' := by
    show List.foldl (fun acc c => acc ++ c) [] [List.replicate 1000001 'a'] = _
    rw [List.foldl_cons, List.foldl_nil, List.nil_append]
  refine ⟨h1, ?_⟩
  rw [h1, List.length_replicate]
  omega

/-- Claim C5 (amended): only `POST /api/book` caps its buffered body: a
body it delivers never exceeds 1,000,000 units, excess destroying the
connection; the `POST /api/delete` reader concatenates every chunk with no
cap, its buffer growing as the total input size. -/
theorem c5_amended_thm :
    (∀ chunks b, bookReadBody chunks = some b → b.length ≤ 1000000) ∧
    (∀ chunks, (deleteReadBody chunks).length = (chunks.map List.length).sum) := by
  constructor
  · intro chunks b h
    exact bookBody_aux chunks [] b (by simp) h
  · intro chunks
    simpa using deleteBody_aux chunks []

/-- Claim C5 (witness): the amended theorem applied to a one-chunk book
body. -/
theorem c5_witness : (['a'] : List Char).length ≤ 1000000 :=
  c5_amended_thm.1 [['a']] ['a'] rfl

/-- Claim C6: a delete whose resolved id matches no record answers 404 and
does not save — the file state is returned unchanged — while a delete with
at least one match saves exactly the filtered collection, whose length has
decreased by exactly the number of matching records. -/
theorem c6_delete_exact :
    ∀ p n file bookings, p ≠ "" → jsToNumber p = some n →
      readBookings file = .arr bookings →
      ((∀ b ∈ bookings, jsStrictEq (jsGet b "id") (some n) = false) →
        sendResponse (some p) file true = some (.notFound, file)) ∧
      ((∃ b ∈ bookings, jsStrictEq (jsGet b "id") (some n) = true) →
        sendResponse (some p) file true =
          some (.success, some (saveBookings
            (bookings.filter (fun b => !(jsStrictEq (jsGet b "id") (some n)))))) ∧
        (bookings.filter (fun b => !(jsStrictEq (jsGet b "id") (some n)))).length +
          (bookings.filter (fun b => jsStrictEq (jsGet b "id") (some n))).length =
          bookings.length) := by
  intro p n file bookings hp hn hread
  constructor
  · intro hall
    have hself : bookings.filter (fun b => !(jsStrictEq (jsGet b "id") (some n))) =
        bookings :=
      List.filter_eq_self.mpr (fun a ha => by simp [hall a ha])
    simp only [sendResponse, toNumber_int hn, hread, if_neg hp, jsStrictEqN_int]
    simp [hself]
  · rintro ⟨b0, hb0, hmatch⟩
    have hne : (bookings.filter
        (fun b => !(jsStrictEq (jsGet b "id") (some n)))).length ≠
        bookings.length := by
      intro hlen
      have := List.filter_length_eq_length.mp hlen b0 hb0
      simp [hmatch] at this
    refine ⟨?_, filter_not_length _ _⟩
    simp only [sendResponse, toNumber_int hn, hread, if_neg hp, jsStrictEqN_int]
    simp [hne]

/-- Claim C6 (witness): the no-match half applied at `id = "5"` on an
empty store. -/
theorem c6_witness : sendResponse (some "5") none true = some (.notFound, none) :=
  (c6_delete_exact "5" 5 none [] (by decide) rfl rfl).1 (by intro b hb; cases hb)

/-- Claim C7: an absent or unreadable bookings file, and a file whose
contents fail to parse as JSON, both load as the empty array — recovery,
not an error. -/
theorem c7_load_recovery :
    readBookings none = Json.arr [] ∧
    (∀ s, jsonParse s = none → readBookings (some s) = Json.arr []) :=
  ⟨rfl, fun s h => by simp [readBookings, h]⟩

/-- Claim C7 (witness): applied to the unparseable file contents
`not json`. -/
theorem c7_witness : readBookings (some "not json") = Json.arr [] :=
  c7_load_recovery.2 "not json" rfl

/-- Claim C8: saving any booking collection and loading it back yields the
same sequence, with field order, keys and values preserved. -/
theorem c8_round_trip (bookings : List Json) :
    readBookings (some (saveBookings bookings)) = Json.arr bookings :=
  loadSave bookings

/-- Claim C9: for a body parsing to a JSON object, create answers 200 with
`id = Date.now()` (the `now` parameter), stores the input merged with the
server-assigned `id` and `timestamp` — overwriting any client-supplied
values — appended at the end of the collection, and a subsequent load
returns exactly the old records followed by the new one. -/
theorem c9_create_assigns :
    ∀ body fields now iso file bookings,
      jsonParse body = some (.obj fields) → readBookings file = .arr bookings →
      handleBook body now iso file true =
        (.ok (some (.num now)), some (saveBookings (bookings ++
          [Json.obj (objSet (objSet fields "id" (.num now)) "timestamp" (.str iso))]))) ∧
      jsGet (Json.obj (objSet (objSet fields "id" (.num now)) "timestamp" (.str iso)))
        "id" = some (.num now) ∧
      jsGet (Json.obj (objSet (objSet fields "id" (.num now)) "timestamp" (.str iso)))
        "timestamp" = some (.str iso) ∧
      readBookings (some (saveBookings (bookings ++
          [Json.obj (objSet (objSet fields "id" (.num now)) "timestamp" (.str iso))]))) =
        .arr (bookings ++
          [Json.obj (objSet (objSet fields "id" (.num now)) "timestamp" (.str iso))]) ∧
      (bookings ++
        [Json.obj (objSet (objSet fields "id" (.num now)) "timestamp" (.str iso))]).length =
        bookings.length + 1 := by
  intro body fields now iso file bookings h hread
  have hid : jsGet (Json.obj (objSet (objSet fields "id" (.num now)) "timestamp"
      (.str iso))) "id" = some (.num now) := by
    simp only [jsGet]
    rw [lookupField_objSet_ne _ (by decide) _, lookupField_objSet_same]
  refine ⟨?_, hid, ?_, loadSave _, by simp⟩
  · simp [handleBook, h, hread, jsSetProp, idRead, hid]
  · simp only [jsGet]
    rw [lookupField_objSet_same]

/-- Claim C9 (witness): applied at body `{}` on an empty store. -/
theorem c9_witness :
    handleBook "\x7b\x7d" 7 "T" none true =
      (.ok (some (.num 7)), some (saveBookings ([] ++
        [Json.obj (objSet (objSet [] "id" (.num 7)) "timestamp" (.str "T"))]))) :=
  (c9_create_assigns "\x7b\x7d" [] 7 "T" none [] rfl rfl).1

/-- Claim C10: delete matches by strict equality against
`Number(idParam)`: a record whose `id` field is a string is never removed,
whatever number the parameter converts to, and when the parameter converts
to `NaN` the filter keeps every record. -/
theorem c10_strict_match :
    (∀ b s idN, jsGet b "id" = some (.str s) → jsStrictEq (jsGet b "id") idN = false) ∧
    (∀ bookings : List Json,
      bookings.filter (fun b => !(jsStrictEq (jsGet b "id") none)) = bookings) := by
  constructor
  · intro b s idN h
    rw [h]
    exact jsStrictEq_str s idN
  · intro bookings
    exact List.filter_eq_self.mpr (fun a ha => by simp [jsStrictEq_nan])

/-- Claim C10 (witness): the record `{"id": "123"}` is not matched by the
numeric id 123. -/
theorem c10_witness :
    jsStrictEq (jsGet (Json.obj [("id", Json.str "123")]) "id") (some 123) = false :=
  c10_strict_match.1 (Json.obj [("id", Json.str "123")]) "123" (some 123) rfl

end Dra
